import Mathlib

/-!
# The homogeneous-coordinate transform engine of `3dTransform.c`

A shallow embedding of the matrix/vector primitives, the elementary transform
builders, the cumulative model state and the key handlers of
`src/3dTransform.c`, followed by the properties established about them.

Conventions of the embedding

* The C type `float` is an arbitrary type `α` carrying just the operations a
  function uses (`0`, `1`, `+`, `*`, unary `-`, `/`, decimal literals).
  Statements that hold whatever these operations do are stated without any
  algebraic law, so they also cover rounded arithmetic.  Statements that rely on
  the laws of arithmetic ask for a commutative ring or a field: there the
  arithmetic is read as exact.
* A `void f(..., T out)` that writes through `out` becomes a function that
  receives the previous contents of `out` and returns the new contents.
* An automatic variable that is declared without initialiser and handed to a
  callee as destination (`mat4 tmp;`, `mat4 M;`) is an extra argument holding
  its indeterminate contents.
* `printf` and `glutPostRedisplay` do not touch the program variables and are
  left out; `exit(0)` is the result `none`.
* `cosf` and `sinf` belong to the C library and are arguments of the functions
  that call them.  Properties that rest on trigonometric identities take the
  real `cos` and `sin` for them, over the real numbers.
* `M_PI` is the decimal constant written in the source, which is close to but
  not equal to the number pi.
* The special-key codes of `<GL/glut.h>` are the fields of a structure that
  `special` receives.
* The type `Flt` instantiates `α` with the special values of `float`
  (infinities, NaN, overflow of finite results); it serves to evaluate the
  program where an entry overflows.
-/

namespace Transform3D

/-- The C type `vec4`, `float[4]`. -/
abbrev vec4 (α : Type) : Type := Fin 4 → α

/-- The C type `mat4`, `float[4][4]`, indexed row first. -/
abbrev mat4 (α : Type) : Type := Fin 4 → Fin 4 → α

/-- The program variables of `3dTransform.c`. -/
structure State (α : Type) where
  cubeVerts : Fin 8 → vec4 α
  originalVerts : Fin 8 → vec4 α
  model : mat4 α
  win_w : Int
  win_h : Int
  viewRotX : α
  viewRotY : α
  lastX : Int
  lastY : Int
  leftButtonDown : Int

/-- Memory holding matrices: the matrix stored at each address. -/
abbrev Mem (α : Type) : Type := Nat → mat4 α

section Definitions

variable {α : Type}

/-- The assignment `m[i][j] = x`. -/
def mat_set (m : mat4 α) (i j : Fin 4) (x : α) : mat4 α :=
  fun r c => if r = i ∧ c = j then x else m r c

/-- The assignment `v[i] = x`. -/
def vec_set (v : vec4 α) (i : Fin 4) (x : α) : vec4 α :=
  fun r => if r = i then x else v r

/-- The call `memcpy(dst, src, sizeof *dst)`: the new contents of `dst`. -/
def memcpy {β : Type} (_dst src : β) : β := src

/-- The call `memset(m, 0, sizeof(mat4))`: every entry becomes `0.0f`. -/
def memset_zero [Zero α] (_m : mat4 α) : mat4 α := fun _ _ => 0

/-- The function `mat_identity` (lines 35-38). -/
def mat_identity [Zero α] [One α] (m : mat4 α) : mat4 α :=
  (List.finRange 4).foldl (fun m i => mat_set m i i 1) (memset_zero m)

/-- The entry `tmp[r][c]` built by the two inner statements of `mat_mul`:
it starts at `0.0f` and receives `a[r][k] * b[k][c]` for `k = 0, 1, 2, 3`. -/
def mat_mul_acc [Zero α] [Add α] [Mul α] (a b : mat4 α) (r c : Fin 4) : α :=
  (List.finRange 4).foldl (fun acc k => acc + a r k * b k c) 0

/-- The function `mat_mul` (lines 41-50): `out` receives a copy of the local
`tmp`, each entry of which has been assigned by the loops. -/
def mat_mul [Zero α] [Add α] [Mul α] (a b out : mat4 α) : mat4 α :=
  let tmp : mat4 α := fun r c => mat_mul_acc a b r c
  memcpy out tmp

/-- The function `mat_mul` on memory: `a`, `b` and `out` are addresses, which
may coincide.  The loops read the matrices at `a` and `b` and write the local
`tmp` only; the final `memcpy` stores `tmp` at `out`. -/
def mat_mul_at [Zero α] [Add α] [Mul α] (μ : Mem α) (a b out : Nat) : Mem α :=
  let tmp : mat4 α := fun r c =>
    (List.finRange 4).foldl (fun acc k => acc + μ a r k * μ b k c) 0
  fun p => if p = out then memcpy (μ out) tmp else μ p

/-- The function `mat_vec_mul` (lines 53-57). -/
def mat_vec_mul [Add α] [Mul α] (m : mat4 α) (v out : vec4 α) : vec4 α :=
  (List.finRange 4).foldl
    (fun out r => vec_set out r (m r 0 * v 0 + m r 1 * v 1 + m r 2 * v 2 + m r 3 * v 3))
    out

/-- The function `translation_matrix` (lines 60-65). -/
def translation_matrix [Zero α] [One α] (tx ty tz : α) (out : mat4 α) : mat4 α :=
  let out := mat_identity out
  let out := mat_set out 0 3 tx
  let out := mat_set out 1 3 ty
  mat_set out 2 3 tz

/-- The function `scaling_matrix` (lines 68-73). -/
def scaling_matrix [Zero α] [One α] (sx sy sz : α) (out : mat4 α) : mat4 α :=
  let out := mat_identity out
  let out := mat_set out 0 0 sx
  let out := mat_set out 1 1 sy
  mat_set out 2 2 sz

/-- The constant `M_PI`, `3.14159265358979323846`. -/
def M_PI [OfScientific α] : α := 3.14159265358979323846

/-- The constant `DEG2RAD`, `(M_PI / 180.0f)`. -/
def DEG2RAD [OfScientific α] [Div α] : α := M_PI / 180.0

/-- The function `rotation_x_matrix` (lines 76-81). -/
def rotation_x_matrix [Zero α] [One α] [Neg α] [Mul α] [Div α] [OfScientific α]
    (cosf sinf : α → α) (angleDeg : α) (out : mat4 α) : mat4 α :=
  let out := mat_identity out
  let a := angleDeg * DEG2RAD
  let out := mat_set out 1 1 (cosf a)
  let out := mat_set out 1 2 (-sinf a)
  let out := mat_set out 2 1 (sinf a)
  mat_set out 2 2 (cosf a)

/-- The function `rotation_y_matrix` (lines 84-89). -/
def rotation_y_matrix [Zero α] [One α] [Neg α] [Mul α] [Div α] [OfScientific α]
    (cosf sinf : α → α) (angleDeg : α) (out : mat4 α) : mat4 α :=
  let out := mat_identity out
  let a := angleDeg * DEG2RAD
  let out := mat_set out 0 0 (cosf a)
  let out := mat_set out 0 2 (sinf a)
  let out := mat_set out 2 0 (-sinf a)
  mat_set out 2 2 (cosf a)

/-- The function `rotation_z_matrix` (lines 92-97). -/
def rotation_z_matrix [Zero α] [One α] [Neg α] [Mul α] [Div α] [OfScientific α]
    (cosf sinf : α → α) (angleDeg : α) (out : mat4 α) : mat4 α :=
  let out := mat_identity out
  let a := angleDeg * DEG2RAD
  let out := mat_set out 0 0 (cosf a)
  let out := mat_set out 0 1 (-sinf a)
  let out := mat_set out 1 0 (sinf a)
  mat_set out 1 1 (cosf a)

/-- The value of a character constant such as `'x'`. -/
def chr (c : Char) : Int := c.toNat

/-- The function `reflection_matrix` (lines 100-105); `axis` is the value of
the `char` argument. -/
def reflection_matrix [Zero α] [One α] [Neg α] (axis : Int) (out : mat4 α) : mat4 α :=
  let out := mat_identity out
  let out := if axis = chr 'x' ∨ axis = chr 'X' then mat_set out 0 0 (-1) else out
  let out := if axis = chr 'y' ∨ axis = chr 'Y' then mat_set out 1 1 (-1) else out
  if axis = chr 'z' ∨ axis = chr 'Z' then mat_set out 2 2 (-1) else out

/-- The function `shear_matrix` (lines 108-118). -/
def shear_matrix [Zero α] [One α] (shearType : Int) (sh : α) (out : mat4 α) : mat4 α :=
  let out := mat_identity out
  if shearType = 1 then mat_set out 0 1 sh
  else if shearType = 2 then mat_set out 0 2 sh
  else if shearType = 3 then mat_set out 1 0 sh
  else if shearType = 4 then mat_set out 1 2 sh
  else if shearType = 5 then mat_set out 2 0 sh
  else if shearType = 6 then mat_set out 2 1 sh
  else out

/-- The loop `for (i = 0; i < 8; ++i) mat_vec_mul(model, originalVerts[i], cubeVerts[i]);`
which occurs in `apply_transform`, in `init_cube` and under `case 'c'` of `keyboard`. -/
def update_verts [Add α] [Mul α] (s : State α) : State α :=
  (List.finRange 8).foldl
    (fun s i => { s with
      cubeVerts := Function.update s.cubeVerts i
        (mat_vec_mul s.model (s.originalVerts i) (s.cubeVerts i)) })
    s

/-- The function `apply_transform` (lines 121-130); `tmp` is the indeterminate
content of its local `tmp`. -/
def apply_transform [Zero α] [Add α] [Mul α] (M : mat4 α) (tmp : mat4 α) (s : State α) :
    State α :=
  let tmp := mat_mul M s.model tmp
  let s := { s with model := memcpy s.model tmp }
  update_verts s

/-- The function `init_cube` (lines 133-144). -/
def init_cube [Zero α] [One α] [Add α] [Mul α] [Neg α] [OfScientific α] (s : State α) :
    State α :=
  let h : α := 0.7
  let v : Fin 8 → vec4 α := ![
    ![-h, -h, -h, 1], ![ h, -h, -h, 1],
    ![ h,  h, -h, 1], ![-h,  h, -h, 1],
    ![-h, -h,  h, 1], ![ h, -h,  h, 1],
    ![ h,  h,  h, 1], ![-h,  h,  h, 1]]
  let s := (List.finRange 8).foldl
    (fun s i => { s with
      originalVerts := Function.update s.originalVerts i (memcpy (s.originalVerts i) (v i)) })
    s
  let s := { s with model := mat_identity s.model }
  update_verts s

/-- The function `keyboard` (lines 250-299); `key` is the value of the
`unsigned char` argument, `M` the indeterminate content of the local `M`, and
`tmp` that of the local of `apply_transform`. -/
def keyboard [Zero α] [One α] [Add α] [Mul α] [Neg α] [Div α] [OfScientific α]
    (cosf sinf : α → α) (key : Nat) (_x _y : Int) (M tmp : mat4 α) (s : State α) :
    Option (State α) :=
  if key = 27 ∨ (key : Int) = chr 'q' then none
  else if (key : Int) = chr 'c' then
    some (update_verts { s with model := mat_identity s.model })
  else if (key : Int) = chr '+' ∨ (key : Int) = chr '=' then
    some (apply_transform (scaling_matrix 1.1 1.1 1.1 M) tmp s)
  else if (key : Int) = chr '-' then
    some (apply_transform (scaling_matrix 0.9 0.9 0.9 M) tmp s)
  else if (key : Int) = chr 'x' then
    some (apply_transform (rotation_x_matrix cosf sinf 10.0 M) tmp s)
  else if (key : Int) = chr 'X' then
    some (apply_transform (rotation_x_matrix cosf sinf (-10.0) M) tmp s)
  else if (key : Int) = chr 'y' then
    some (apply_transform (rotation_y_matrix cosf sinf 10.0 M) tmp s)
  else if (key : Int) = chr 'Y' then
    some (apply_transform (rotation_y_matrix cosf sinf (-10.0) M) tmp s)
  else if (key : Int) = chr 'z' then
    some (apply_transform (rotation_z_matrix cosf sinf 10.0 M) tmp s)
  else if (key : Int) = chr 'Z' then
    some (apply_transform (rotation_z_matrix cosf sinf (-10.0) M) tmp s)
  else if (key : Int) = chr 'F' then
    some (apply_transform (reflection_matrix (chr 'x') M) tmp s)
  else if (key : Int) = chr 'G' then
    some (apply_transform (reflection_matrix (chr 'y') M) tmp s)
  else if (key : Int) = chr 'H' then
    some (apply_transform (reflection_matrix (chr 'z') M) tmp s)
  else if (key : Int) = chr '1' ∨ (key : Int) = chr '2' ∨ (key : Int) = chr '3' ∨
      (key : Int) = chr '4' ∨ (key : Int) = chr '5' ∨ (key : Int) = chr '6' then
    let t : Int := (key : Int) - chr '0'
    some (apply_transform (shear_matrix t 0.3 M) tmp s)
  else some s

/-- The special-key codes that `<GL/glut.h>` defines and `special` uses by name. -/
structure GlutKeys where
  GLUT_KEY_LEFT : Int
  GLUT_KEY_RIGHT : Int
  GLUT_KEY_UP : Int
  GLUT_KEY_DOWN : Int
  GLUT_KEY_PAGE_UP : Int
  GLUT_KEY_PAGE_DOWN : Int

/-- The function `special` (lines 302-319); `M` is the indeterminate content of
the local `M`, and `tmp` that of the local of `apply_transform`. -/
def special [Zero α] [One α] [Add α] [Mul α] [Neg α] [OfScientific α]
    (K : GlutKeys) (key : Int) (_x _y : Int) (M tmp : mat4 α) (s : State α) : State α :=
  if key = K.GLUT_KEY_LEFT then
    apply_transform (translation_matrix (-0.1) 0.0 0.0 M) tmp s
  else if key = K.GLUT_KEY_RIGHT then
    apply_transform (translation_matrix 0.1 0.0 0.0 M) tmp s
  else if key = K.GLUT_KEY_UP then
    apply_transform (translation_matrix 0.0 0.1 0.0 M) tmp s
  else if key = K.GLUT_KEY_DOWN then
    apply_transform (translation_matrix 0.0 (-0.1) 0.0 M) tmp s
  else if key = K.GLUT_KEY_PAGE_UP then
    apply_transform (translation_matrix 0.0 0.0 0.1 M) tmp s
  else if key = K.GLUT_KEY_PAGE_DOWN then
    apply_transform (translation_matrix 0.0 0.0 (-0.1) M) tmp s
  else s

/-- The values of the program variables when `main` starts (lines 22-32):
the arrays are zero-initialised, the others carry their initialisers. -/
def initial_state [Zero α] [Neg α] [OfScientific α] : State α where
  cubeVerts := fun _ _ => 0
  originalVerts := fun _ _ => 0
  model := fun _ _ => 0
  win_w := 800
  win_h := 600
  viewRotX := 20.0
  viewRotY := -30.0
  lastX := -1
  lastY := -1
  leftButtonDown := 0

/-- A request served by the transform engine: a call `apply_transform(M)`, or
the key `'c'` delivered to `keyboard` at mouse position `(x, y)`.  The matrices
`tmp` and `M0` are the indeterminate contents of the locals involved. -/
inductive Request (α : Type) where
  | transform (M tmp : mat4 α)
  | reset (x y : Int) (M0 tmp : mat4 α)

/-- Serving one request. -/
def serve [Zero α] [One α] [Add α] [Mul α] [Neg α] [Div α] [OfScientific α]
    (cosf sinf : α → α) (s : State α) : Request α → Option (State α)
  | .transform M tmp => some (apply_transform M tmp s)
  | .reset x y M0 tmp => keyboard cosf sinf ('c').toNat x y M0 tmp s

/-- Serving a finite sequence of requests, first to last. -/
def run [Zero α] [One α] [Add α] [Mul α] [Neg α] [Div α] [OfScientific α]
    (cosf sinf : α → α) (s : State α) : List (Request α) → Option (State α)
  | [] => some s
  | q :: qs => (serve cosf sinf s q).bind (fun s1 => run cosf sinf s1 qs)

/-- The central invariant: every transformed vertex is the model matrix applied
to the corresponding original vertex. -/
def Consistent [Add α] [Mul α] (s : State α) : Prop :=
  ∀ (i : Fin 8) (out : vec4 α), s.cubeVerts i = mat_vec_mul s.model (s.originalVerts i) out

/-- The matrix with `1.0f` on the diagonal and `0.0f` elsewhere. -/
def identity4 [Zero α] [One α] : mat4 α := fun r c => if r = c then 1 else 0

/-- The transpose of a matrix; a notion of the stated properties, the program
has no such function. -/
def transpose4 (m : mat4 α) : mat4 α := fun r c => m c r

/-- A call of one of the seven builders, with its parameters. -/
inductive Builder (α : Type) where
  | translation (tx ty tz : α)
  | scaling (sx sy sz : α)
  | rotation_x (angleDeg : α)
  | rotation_y (angleDeg : α)
  | rotation_z (angleDeg : α)
  | reflection (axis : Int)
  | shear (shearType : Int) (sh : α)

/-- The matrix a builder call leaves in its destination `out`. -/
def Builder.build [Zero α] [One α] [Neg α] [Mul α] [Div α] [OfScientific α]
    (cosf sinf : α → α) (out : mat4 α) : Builder α → mat4 α
  | .translation tx ty tz => translation_matrix tx ty tz out
  | .scaling sx sy sz => scaling_matrix sx sy sz out
  | .rotation_x angleDeg => rotation_x_matrix cosf sinf angleDeg out
  | .rotation_y angleDeg => rotation_y_matrix cosf sinf angleDeg out
  | .rotation_z angleDeg => rotation_z_matrix cosf sinf angleDeg out
  | .reflection axis => reflection_matrix axis out
  | .shear shearType sh => shear_matrix shearType sh out

/-- A request whose matrix is produced by a builder: the builder writes the
local `M` and `apply_transform` composes it, as every transform case of
`keyboard` and `special` does; or the reset (key `'c'`). -/
inductive BuilderRequest (α : Type) where
  | compose (b : Builder α) (M tmp : mat4 α)
  | reset (x y : Int) (M0 tmp : mat4 α)

/-- The request a builder request amounts to. -/
def BuilderRequest.toRequest [Zero α] [One α] [Neg α] [Mul α] [Div α] [OfScientific α]
    (cosf sinf : α → α) : BuilderRequest α → Request α
  | .compose b M tmp => Request.transform (b.build cosf sinf M) tmp
  | .reset x y M0 tmp => Request.reset x y M0 tmp

/-- An event that the GLUT main loop delivers to a key handler: `keyboard` with
an `unsigned char` key or `special` with a special-key code, at mouse position
`(x, y)`.  The matrices `M` and `tmp` are the indeterminate contents of the
locals involved. -/
inductive KeyEvent (α : Type) where
  | key (key : Nat) (x y : Int) (M tmp : mat4 α)
  | specialKey (key : Int) (x y : Int) (M tmp : mat4 α)

/-- Handling one key event; `none` when `keyboard` calls `exit`. -/
def handle [Zero α] [One α] [Add α] [Mul α] [Neg α] [Div α] [OfScientific α]
    (cosf sinf : α → α) (K : GlutKeys) (s : State α) : KeyEvent α → Option (State α)
  | .key k x y M tmp => keyboard cosf sinf k x y M tmp s
  | .specialKey k x y M tmp => some (special K k x y M tmp s)

/-- The state the program variables are in after the key events have been
handled in order; handling ends at the event on which `keyboard` calls `exit`. -/
def drive [Zero α] [One α] [Add α] [Mul α] [Neg α] [Div α] [OfScientific α]
    (cosf sinf : α → α) (K : GlutKeys) (s : State α) : List (KeyEvent α) → State α
  | [] => s
  | e :: es =>
    match handle cosf sinf K s e with
    | none => s
    | some s1 => drive cosf sinf K s1 es

/-- The last row of the matrix is `(0, 0, 0, 1)`: the matrix is an affine map in
homogeneous coordinates. -/
def Affine [Zero α] [One α] (m : mat4 α) : Prop := m 3 = ![0, 0, 0, 1]

/-- The values of the C type `float` (IEEE 754 binary32) as far as overflow is
concerned: a finite value, `+inf`, `-inf` or NaN.  A finite value is kept as
the exact rational it denotes; rounding to 24 significant bits and the sign of
zero are not represented. -/
inductive Flt where
  | fin (q : ℚ)
  | pinf
  | ninf
  | nan

/-- The least magnitude that binary32 rounds to an infinity: `2^128 - 2^103`,
half a unit in the last place above `FLT_MAX`. -/
def Flt.overflow : ℚ := 2 ^ 128 - 2 ^ 103

/-- The `float` that an exactly computed finite result `q` yields: the
infinity of its sign when its magnitude reaches `Flt.overflow`, else `q`. -/
def Flt.ofRat (q : ℚ) : Flt :=
  if Flt.overflow ≤ q then Flt.pinf
  else if q ≤ -Flt.overflow then Flt.ninf
  else Flt.fin q

/-- An infinity, `+inf` when `positive` and `-inf` otherwise, multiplied by the
finite value `q`: NaN for zero, else the infinity whose sign is the product of
the signs. -/
def Flt.scaleInf (positive : Bool) (q : ℚ) : Flt :=
  if q = 0 then Flt.nan
  else if decide (0 < q) = positive then Flt.pinf
  else Flt.ninf

/-- Unary minus of `float`. -/
def Flt.neg : Flt → Flt
  | Flt.fin q => Flt.fin (-q)
  | Flt.pinf => Flt.ninf
  | Flt.ninf => Flt.pinf
  | Flt.nan => Flt.nan

/-- Addition of `float`: NaN is absorbing, infinities of opposite sign give
NaN, an infinity absorbs finite values. -/
def Flt.add : Flt → Flt → Flt
  | Flt.fin a, Flt.fin b => Flt.ofRat (a + b)
  | Flt.fin _, Flt.pinf => Flt.pinf
  | Flt.fin _, Flt.ninf => Flt.ninf
  | Flt.fin _, Flt.nan => Flt.nan
  | Flt.pinf, Flt.fin _ => Flt.pinf
  | Flt.pinf, Flt.pinf => Flt.pinf
  | Flt.pinf, Flt.ninf => Flt.nan
  | Flt.pinf, Flt.nan => Flt.nan
  | Flt.ninf, Flt.fin _ => Flt.ninf
  | Flt.ninf, Flt.pinf => Flt.nan
  | Flt.ninf, Flt.ninf => Flt.ninf
  | Flt.ninf, Flt.nan => Flt.nan
  | Flt.nan, _ => Flt.nan

/-- Multiplication of `float`: NaN is absorbing, zero times an infinity is
NaN, otherwise an infinity keeps its magnitude and takes the product sign. -/
def Flt.mul : Flt → Flt → Flt
  | Flt.fin a, Flt.fin b => Flt.ofRat (a * b)
  | Flt.fin a, Flt.pinf => Flt.scaleInf true a
  | Flt.fin a, Flt.ninf => Flt.scaleInf false a
  | Flt.fin _, Flt.nan => Flt.nan
  | Flt.pinf, Flt.fin b => Flt.scaleInf true b
  | Flt.pinf, Flt.pinf => Flt.pinf
  | Flt.pinf, Flt.ninf => Flt.ninf
  | Flt.pinf, Flt.nan => Flt.nan
  | Flt.ninf, Flt.fin b => Flt.scaleInf false b
  | Flt.ninf, Flt.pinf => Flt.ninf
  | Flt.ninf, Flt.ninf => Flt.pinf
  | Flt.ninf, Flt.nan => Flt.nan
  | Flt.nan, _ => Flt.nan

instance : Zero Flt := ⟨Flt.fin 0⟩

instance : One Flt := ⟨Flt.fin 1⟩

instance : Neg Flt := ⟨Flt.neg⟩

instance : Add Flt := ⟨Flt.add⟩

instance : Mul Flt := ⟨Flt.mul⟩

/-- A decimal constant denotes its exact value, or an infinity on overflow. -/
instance : OfScientific Flt := ⟨fun m s e => Flt.ofRat (OfScientific.ofScientific m s e)⟩

/-- The matrix `scaling_matrix(2^100, 2^100, 2^100)` in `float` arithmetic,
written over a destination filled with zeros. -/
def overflow_scaling : mat4 Flt :=
  scaling_matrix (Flt.fin (2 ^ 100)) (Flt.fin (2 ^ 100)) (Flt.fin (2 ^ 100)) (fun _ _ => 0)

/-- The state, in `float` arithmetic, after `init_cube` from the start of
`main` and three calls `apply_transform(overflow_scaling)`. -/
def overflow_state : State Flt :=
  apply_transform overflow_scaling (fun _ _ => 0)
    (apply_transform overflow_scaling (fun _ _ => 0)
      (apply_transform overflow_scaling (fun _ _ => 0) (init_cube initial_state)))

end Definitions

/-! ## Auxiliary facts -/

section Auxiliary

variable {α : Type}

theorem finRange_four : List.finRange 4 = [0, 1, 2, 3] := rfl

theorem finRange_eight : List.finRange 8 = [0, 1, 2, 3, 4, 5, 6, 7] := rfl

theorem mat_identity_apply [Zero α] [One α] (m : mat4 α) (r c : Fin 4) :
    mat_identity m r c = if r = c then 1 else 0 := by
  fin_cases r <;> fin_cases c <;>
    simp [mat_identity, memset_zero, mat_set, finRange_four]

theorem mat_identity_eq [Zero α] [One α] (m : mat4 α) : mat_identity m = identity4 := by
  funext r c
  exact mat_identity_apply m r c

theorem mat_mul_apply [Zero α] [Add α] [Mul α] (a b out : mat4 α) (r c : Fin 4) :
    mat_mul a b out r c
      = 0 + a r 0 * b 0 c + a r 1 * b 1 c + a r 2 * b 2 c + a r 3 * b 3 c := by
  simp [mat_mul, mat_mul_acc, memcpy, finRange_four]

theorem mat_vec_mul_apply [Add α] [Mul α] (m : mat4 α) (v out : vec4 α) (r : Fin 4) :
    mat_vec_mul m v out r = m r 0 * v 0 + m r 1 * v 1 + m r 2 * v 2 + m r 3 * v 3 := by
  fin_cases r <;> simp [mat_vec_mul, vec_set, finRange_four]

theorem mat_vec_mul_out [Add α] [Mul α] (m : mat4 α) (v out out1 : vec4 α) :
    mat_vec_mul m v out = mat_vec_mul m v out1 := by
  funext r
  rw [mat_vec_mul_apply, mat_vec_mul_apply]

theorem update_verts_cubeVerts [Add α] [Mul α] (s : State α) (i : Fin 8) :
    (update_verts s).cubeVerts i = mat_vec_mul s.model (s.originalVerts i) (s.cubeVerts i) := by
  fin_cases i <;> simp [update_verts, finRange_eight, Function.update]

theorem update_verts_frame [Add α] [Mul α] (s : State α) :
    update_verts s = { s with cubeVerts := (update_verts s).cubeVerts } := by
  simp [update_verts, finRange_eight]

theorem update_verts_model [Add α] [Mul α] (s : State α) :
    (update_verts s).model = s.model := by
  rw [update_verts_frame]

theorem update_verts_originalVerts [Add α] [Mul α] (s : State α) :
    (update_verts s).originalVerts = s.originalVerts := by
  rw [update_verts_frame]

theorem update_verts_consistent [Add α] [Mul α] (s : State α) :
    Consistent (update_verts s) := by
  intro i out
  rw [update_verts_cubeVerts, update_verts_model, update_verts_originalVerts]
  exact mat_vec_mul_out _ _ _ _

theorem keyboard_c [Zero α] [One α] [Add α] [Mul α] [Neg α] [Div α] [OfScientific α]
    (cosf sinf : α → α) (x y : Int) (M0 tmp : mat4 α) (s : State α) :
    keyboard cosf sinf ('c').toNat x y M0 tmp s
      = some (update_verts { s with model := mat_identity s.model }) := by
  rfl

theorem serve_total [Zero α] [One α] [Add α] [Mul α] [Neg α] [Div α] [OfScientific α]
    (cosf sinf : α → α) (s : State α) (q : Request α) :
    ∃ s1, serve cosf sinf s q = some s1 ∧ Consistent s1
      ∧ s1.originalVerts = s.originalVerts := by
  cases q with
  | transform M tmp =>
      exact ⟨_, rfl, update_verts_consistent _, update_verts_originalVerts _⟩
  | reset x y M0 tmp =>
      exact ⟨_, keyboard_c cosf sinf x y M0 tmp s, update_verts_consistent _,
        update_verts_originalVerts _⟩

theorem run_total [Zero α] [One α] [Add α] [Mul α] [Neg α] [Div α] [OfScientific α]
    (cosf sinf : α → α) (qs : List (Request α)) (s : State α) (hs : Consistent s) :
    ∃ s1, run cosf sinf s qs = some s1 ∧ Consistent s1
      ∧ s1.originalVerts = s.originalVerts := by
  induction qs generalizing s with
  | nil => exact ⟨s, rfl, hs, rfl⟩
  | cons q qs ih =>
      obtain ⟨s1, h1, c1, o1⟩ := serve_total cosf sinf s q
      obtain ⟨s2, h2, c2, o2⟩ := ih s1 c1
      exact ⟨s2, by simp [run, h1, h2], c2, o2.trans o1⟩

theorem run_append [Zero α] [One α] [Add α] [Mul α] [Neg α] [Div α] [OfScientific α]
    (cosf sinf : α → α) (qs rs : List (Request α)) (s : State α) :
    run cosf sinf s (qs ++ rs) = (run cosf sinf s qs).bind (fun s1 => run cosf sinf s1 rs) := by
  induction qs generalizing s with
  | nil => simp [run]
  | cons q qs ih =>
      cases h : serve cosf sinf s q with
      | none => simp [run, h]
      | some s1 => simp [run, h, ih]

theorem apply_transform_model [Zero α] [Add α] [Mul α] (M tmp out : mat4 α) (s : State α) :
    (apply_transform M tmp s).model = mat_mul M s.model out := by
  simp [apply_transform, update_verts_model, memcpy, mat_mul]

theorem apply_transform_originalVerts [Zero α] [Add α] [Mul α] (M tmp : mat4 α) (s : State α) :
    (apply_transform M tmp s).originalVerts = s.originalVerts :=
  update_verts_originalVerts _

theorem apply_transform_cubeVerts [Zero α] [Add α] [Mul α] (M tmp out : mat4 α)
    (out1 : vec4 α) (s : State α) (i : Fin 8) :
    (apply_transform M tmp s).cubeVerts i
      = mat_vec_mul (mat_mul M s.model out) (s.originalVerts i) out1 := by
  have h : Consistent (apply_transform M tmp s) := update_verts_consistent _
  rw [h i out1, apply_transform_originalVerts, apply_transform_model M tmp out]

theorem init_cube_model [Zero α] [One α] [Add α] [Mul α] [Neg α] [OfScientific α]
    (s0 : State α) : (init_cube s0).model = identity4 := by
  simp [init_cube, update_verts_model, mat_identity_eq]

theorem mat_mul_identity_right [CommRing α] (a out : mat4 α) :
    mat_mul a identity4 out = a := by
  funext r c
  fin_cases c <;> simp [mat_mul_apply, identity4]

theorem mat_vec_mul_identity [CommRing α] (v out : vec4 α) :
    mat_vec_mul identity4 v out = v := by
  funext r
  fin_cases r <;> simp [mat_vec_mul_apply, identity4]

theorem mat_vec_mul_mat_mul [CommRing α] (a b out : mat4 α) (v out1 out2 out3 : vec4 α) :
    mat_vec_mul (mat_mul a b out) v out1 = mat_vec_mul a (mat_vec_mul b v out2) out3 := by
  funext r
  simp only [mat_vec_mul_apply, mat_mul_apply]
  ring

theorem translation_matrix_eq [Zero α] [One α] (tx ty tz : α) (out : mat4 α) :
    translation_matrix tx ty tz out
      = ![![1, 0, 0, tx], ![0, 1, 0, ty], ![0, 0, 1, tz], ![0, 0, 0, 1]] := by
  funext r c
  fin_cases r <;> fin_cases c <;> rfl

theorem init_cube_originalVerts [Zero α] [One α] [Add α] [Mul α] [Neg α] [OfScientific α]
    (s0 : State α) :
    (init_cube s0).originalVerts = ![
      ![-0.7, -0.7, -0.7, 1], ![ 0.7, -0.7, -0.7, 1],
      ![ 0.7,  0.7, -0.7, 1], ![-0.7,  0.7, -0.7, 1],
      ![-0.7, -0.7,  0.7, 1], ![ 0.7, -0.7,  0.7, 1],
      ![ 0.7,  0.7,  0.7, 1], ![-0.7,  0.7,  0.7, 1]] := by
  funext i
  fin_cases i <;> rfl

theorem vec4_ext (v w : vec4 α) (h0 : v 0 = w 0) (h1 : v 1 = w 1) (h2 : v 2 = w 2)
    (h3 : v 3 = w 3) : v = w := by
  funext r
  fin_cases r
  · exact h0
  · exact h1
  · exact h2
  · exact h3

theorem scaling_matrix_eq [Zero α] [One α] (sx sy sz : α) (out : mat4 α) :
    scaling_matrix sx sy sz out
      = ![![sx, 0, 0, 0], ![0, sy, 0, 0], ![0, 0, sz, 0], ![0, 0, 0, 1]] := by
  funext r c
  fin_cases r <;> fin_cases c <;> rfl

theorem chr_values :
    chr 'x' = 120 ∧ chr 'X' = 88 ∧ chr 'y' = 121 ∧ chr 'Y' = 89 ∧ chr 'z' = 122 ∧
    chr 'Z' = 90 := by
  decide

theorem mat4_ext (a b : mat4 α)
    (h0 : a 0 = b 0) (h1 : a 1 = b 1) (h2 : a 2 = b 2) (h3 : a 3 = b 3) : a = b := by
  funext r
  fin_cases r
  · exact h0
  · exact h1
  · exact h2
  · exact h3

theorem reflection_matrix_eq [Zero α] [One α] [Neg α] (axis : Int) (out : mat4 α) :
    reflection_matrix axis out
      = (if axis = chr 'x' ∨ axis = chr 'X' then
          ![![-1, 0, 0, 0], ![0, 1, 0, 0], ![0, 0, 1, 0], ![0, 0, 0, 1]]
        else if axis = chr 'y' ∨ axis = chr 'Y' then
          ![![1, 0, 0, 0], ![0, -1, 0, 0], ![0, 0, 1, 0], ![0, 0, 0, 1]]
        else if axis = chr 'z' ∨ axis = chr 'Z' then
          ![![1, 0, 0, 0], ![0, 1, 0, 0], ![0, 0, -1, 0], ![0, 0, 0, 1]]
        else identity4) := by
  obtain ⟨hx, hX, hy, hY, hz, hZ⟩ := chr_values
  unfold reflection_matrix
  rw [hx, hX, hy, hY, hz, hZ]
  by_cases h1 : axis = 120 ∨ axis = 88
  · have h2 : ¬ (axis = 121 ∨ axis = 89) := by omega
    have h3 : ¬ (axis = 122 ∨ axis = 90) := by omega
    simp only [h1, h2, h3, if_true, if_false]
    funext r c
    fin_cases r <;> fin_cases c <;> rfl
  · by_cases h2 : axis = 121 ∨ axis = 89
    · have h3 : ¬ (axis = 122 ∨ axis = 90) := by omega
      simp only [h1, h2, h3, if_true, if_false]
      funext r c
      fin_cases r <;> fin_cases c <;> rfl
    · by_cases h3 : axis = 122 ∨ axis = 90
      · simp only [h1, h2, h3, if_true, if_false]
        funext r c
        fin_cases r <;> fin_cases c <;> rfl
      · simp only [h1, h2, h3, if_false]
        funext r c
        fin_cases r <;> fin_cases c <;> rfl

theorem shear_matrix_eq [Zero α] [One α] (shearType : Int) (sh : α) (out : mat4 α) :
    shear_matrix shearType sh out
      = (if shearType = 1 then ![![1, sh, 0, 0], ![0, 1, 0, 0], ![0, 0, 1, 0], ![0, 0, 0, 1]]
        else if shearType = 2 then
          ![![1, 0, sh, 0], ![0, 1, 0, 0], ![0, 0, 1, 0], ![0, 0, 0, 1]]
        else if shearType = 3 then
          ![![1, 0, 0, 0], ![sh, 1, 0, 0], ![0, 0, 1, 0], ![0, 0, 0, 1]]
        else if shearType = 4 then
          ![![1, 0, 0, 0], ![0, 1, sh, 0], ![0, 0, 1, 0], ![0, 0, 0, 1]]
        else if shearType = 5 then
          ![![1, 0, 0, 0], ![0, 1, 0, 0], ![sh, 0, 1, 0], ![0, 0, 0, 1]]
        else if shearType = 6 then
          ![![1, 0, 0, 0], ![0, 1, 0, 0], ![0, sh, 1, 0], ![0, 0, 0, 1]]
        else identity4) := by
  unfold shear_matrix
  split_ifs <;>
    (funext r c
     fin_cases r <;> fin_cases c <;> rfl)

theorem rotation_x_matrix_eq [Zero α] [One α] [Neg α] [Mul α] [Div α] [OfScientific α]
    (cosf sinf : α → α) (angleDeg : α) (out : mat4 α) :
    rotation_x_matrix cosf sinf angleDeg out
      = ![![1, 0, 0, 0],
          ![0, cosf (angleDeg * DEG2RAD), -sinf (angleDeg * DEG2RAD), 0],
          ![0, sinf (angleDeg * DEG2RAD), cosf (angleDeg * DEG2RAD), 0],
          ![0, 0, 0, 1]] := by
  funext r c
  fin_cases r <;> fin_cases c <;> rfl

theorem rotation_y_matrix_eq [Zero α] [One α] [Neg α] [Mul α] [Div α] [OfScientific α]
    (cosf sinf : α → α) (angleDeg : α) (out : mat4 α) :
    rotation_y_matrix cosf sinf angleDeg out
      = ![![cosf (angleDeg * DEG2RAD), 0, sinf (angleDeg * DEG2RAD), 0],
          ![0, 1, 0, 0],
          ![-sinf (angleDeg * DEG2RAD), 0, cosf (angleDeg * DEG2RAD), 0],
          ![0, 0, 0, 1]] := by
  funext r c
  fin_cases r <;> fin_cases c <;> rfl

theorem rotation_z_matrix_eq [Zero α] [One α] [Neg α] [Mul α] [Div α] [OfScientific α]
    (cosf sinf : α → α) (angleDeg : α) (out : mat4 α) :
    rotation_z_matrix cosf sinf angleDeg out
      = ![![cosf (angleDeg * DEG2RAD), -sinf (angleDeg * DEG2RAD), 0, 0],
          ![sinf (angleDeg * DEG2RAD), cosf (angleDeg * DEG2RAD), 0, 0],
          ![0, 0, 1, 0],
          ![0, 0, 0, 1]] := by
  funext r c
  fin_cases r <;> fin_cases c <;> rfl

theorem quarter_turn_bounds :
    |Real.cos ((90 : ℝ) * DEG2RAD)| ≤ 0.00001 ∧
    |Real.sin ((90 : ℝ) * DEG2RAD) - 1| ≤ 0.00001 := by
  have hlo := Real.pi_gt_d20
  have hhi := Real.pi_lt_d20
  have ha : (90 : ℝ) * DEG2RAD
      = ((90 : ℝ) * DEG2RAD - Real.pi / 2) + Real.pi / 2 := by ring
  have hd : |(90 : ℝ) * DEG2RAD - Real.pi / 2| ≤ 0.000001 := by
    rw [abs_le]
    constructor <;> (simp only [DEG2RAD, M_PI]; norm_num; linarith)
  have hd2 := abs_le.mp hd
  rw [ha, Real.cos_add_pi_div_two, Real.sin_add_pi_div_two, abs_neg]
  constructor
  · exact Real.abs_sin_le_abs.trans (hd.trans (by norm_num))
  · have h1 := Real.one_sub_sq_div_two_le_cos (x := (90 : ℝ) * DEG2RAD - Real.pi / 2)
    have h2 := Real.cos_le_one ((90 : ℝ) * DEG2RAD - Real.pi / 2)
    rw [abs_le]
    constructor <;> nlinarith [hd2.1, hd2.2]

theorem rotation_x_orthogonal (a : ℝ) (o1 o2 o3 : mat4 ℝ) :
    mat_mul (rotation_x_matrix Real.cos Real.sin a o1)
        (transpose4 (rotation_x_matrix Real.cos Real.sin a o1)) o2 = identity4 ∧
    mat_mul (transpose4 (rotation_x_matrix Real.cos Real.sin a o1))
        (rotation_x_matrix Real.cos Real.sin a o1) o2 = identity4 ∧
    rotation_x_matrix Real.cos Real.sin (-a) o3
      = transpose4 (rotation_x_matrix Real.cos Real.sin a o1) := by
  have h := Real.sin_sq_add_cos_sq (a * DEG2RAD)
  refine ⟨?_, ?_, ?_⟩
  · funext r c
    fin_cases r <;> fin_cases c <;>
      simp [mat_mul_apply, rotation_x_matrix, mat_set, mat_identity_apply, transpose4,
        identity4] <;> linarith
  · funext r c
    fin_cases r <;> fin_cases c <;>
      simp [mat_mul_apply, rotation_x_matrix, mat_set, mat_identity_apply, transpose4,
        identity4] <;> linarith
  · funext r c
    fin_cases r <;> fin_cases c <;>
      simp [rotation_x_matrix, mat_set, mat_identity_apply, transpose4, neg_mul]

theorem rotation_y_orthogonal (a : ℝ) (o1 o2 o3 : mat4 ℝ) :
    mat_mul (rotation_y_matrix Real.cos Real.sin a o1)
        (transpose4 (rotation_y_matrix Real.cos Real.sin a o1)) o2 = identity4 ∧
    mat_mul (transpose4 (rotation_y_matrix Real.cos Real.sin a o1))
        (rotation_y_matrix Real.cos Real.sin a o1) o2 = identity4 ∧
    rotation_y_matrix Real.cos Real.sin (-a) o3
      = transpose4 (rotation_y_matrix Real.cos Real.sin a o1) := by
  have h := Real.sin_sq_add_cos_sq (a * DEG2RAD)
  refine ⟨?_, ?_, ?_⟩
  · funext r c
    fin_cases r <;> fin_cases c <;>
      simp [mat_mul_apply, rotation_y_matrix, mat_set, mat_identity_apply, transpose4,
        identity4] <;> linarith
  · funext r c
    fin_cases r <;> fin_cases c <;>
      simp [mat_mul_apply, rotation_y_matrix, mat_set, mat_identity_apply, transpose4,
        identity4] <;> linarith
  · funext r c
    fin_cases r <;> fin_cases c <;>
      simp [rotation_y_matrix, mat_set, mat_identity_apply, transpose4, neg_mul]

theorem rotation_z_orthogonal (a : ℝ) (o1 o2 o3 : mat4 ℝ) :
    mat_mul (rotation_z_matrix Real.cos Real.sin a o1)
        (transpose4 (rotation_z_matrix Real.cos Real.sin a o1)) o2 = identity4 ∧
    mat_mul (transpose4 (rotation_z_matrix Real.cos Real.sin a o1))
        (rotation_z_matrix Real.cos Real.sin a o1) o2 = identity4 ∧
    rotation_z_matrix Real.cos Real.sin (-a) o3
      = transpose4 (rotation_z_matrix Real.cos Real.sin a o1) := by
  have h := Real.sin_sq_add_cos_sq (a * DEG2RAD)
  refine ⟨?_, ?_, ?_⟩
  · funext r c
    fin_cases r <;> fin_cases c <;>
      simp [mat_mul_apply, rotation_z_matrix, mat_set, mat_identity_apply, transpose4,
        identity4] <;> linarith
  · funext r c
    fin_cases r <;> fin_cases c <;>
      simp [mat_mul_apply, rotation_z_matrix, mat_set, mat_identity_apply, transpose4,
        identity4] <;> linarith
  · funext r c
    fin_cases r <;> fin_cases c <;>
      simp [rotation_z_matrix, mat_set, mat_identity_apply, transpose4, neg_mul]

theorem init_cube_w [Zero α] [One α] [Add α] [Mul α] [Neg α] [OfScientific α]
    (s0 : State α) (i : Fin 8) : (init_cube s0).originalVerts i 3 = 1 := by
  rw [init_cube_originalVerts]
  fin_cases i <;> rfl

theorem quarter_turn_sin_ne_zero : Real.sin ((90 : ℝ) * DEG2RAD) ≠ 0 := by
  have h := (abs_le.mp quarter_turn_bounds.2).1
  intro h0
  rw [h0] at h
  norm_num at h

theorem identity4_affine [Zero α] [One α] : Affine (identity4 : mat4 α) := by
  funext c
  fin_cases c <;> rfl

theorem build_affine [Zero α] [One α] [Neg α] [Mul α] [Div α] [OfScientific α]
    (cosf sinf : α → α) (out : mat4 α) (b : Builder α) : Affine (b.build cosf sinf out) := by
  cases b with
  | translation tx ty tz =>
      funext c
      fin_cases c <;> rfl
  | scaling sx sy sz =>
      funext c
      fin_cases c <;> rfl
  | rotation_x angleDeg =>
      funext c
      fin_cases c <;> rfl
  | rotation_y angleDeg =>
      funext c
      fin_cases c <;> rfl
  | rotation_z angleDeg =>
      funext c
      fin_cases c <;> rfl
  | reflection axis =>
      show reflection_matrix axis out 3 = ![0, 0, 0, 1]
      rw [reflection_matrix_eq]
      split_ifs <;>
        (funext c
         fin_cases c <;> rfl)
  | shear shearType sh =>
      show shear_matrix shearType sh out 3 = ![0, 0, 0, 1]
      rw [shear_matrix_eq]
      split_ifs <;>
        (funext c
         fin_cases c <;> rfl)

theorem mat_mul_affine [CommRing α] (a m out : mat4 α) (ha : Affine a) (hm : Affine m) :
    Affine (mat_mul a m out) := by
  unfold Affine at ha hm ⊢
  funext c
  rw [mat_mul_apply, ha, hm]
  simp [-Matrix.cons_val']

theorem affine_w [CommRing α] (s : State α) (hc : Consistent s) (hm : Affine s.model)
    (i : Fin 8) (hw : s.originalVerts i 3 = 1) : s.cubeVerts i 3 = 1 := by
  unfold Affine at hm
  rw [hc i (s.cubeVerts i), mat_vec_mul_apply, hm, hw]
  simp [-Matrix.cons_val']

theorem run_affine [Field α] (cosf sinf : α → α) (qs : List (BuilderRequest α))
    (s : State α) (hm : Affine s.model) (hc : Consistent s) :
    ∃ s1, run cosf sinf s (qs.map (BuilderRequest.toRequest cosf sinf)) = some s1 ∧
      Affine s1.model ∧ Consistent s1 ∧ s1.originalVerts = s.originalVerts := by
  induction qs generalizing s with
  | nil => exact ⟨s, rfl, hm, hc, rfl⟩
  | cons q qs ih =>
      cases q with
      | compose b M tmp =>
          have hm1 : Affine (apply_transform (b.build cosf sinf M) tmp s).model := by
            rw [apply_transform_model _ tmp tmp]
            exact mat_mul_affine _ _ _ (build_affine cosf sinf M b) hm
          obtain ⟨s2, h2, m2, c2, o2⟩ := ih _ hm1 (update_verts_consistent _)
          refine ⟨s2, ?_, m2, c2, o2.trans (apply_transform_originalVerts _ _ _)⟩
          simpa [run, serve, BuilderRequest.toRequest] using h2
      | reset x y M0 tmp =>
          have hm1 : Affine (update_verts { s with model := mat_identity s.model }).model := by
            rw [update_verts_model]
            simp only [mat_identity_eq]
            exact identity4_affine
          obtain ⟨s2, h2, m2, c2, o2⟩ := ih _ hm1 (update_verts_consistent _)
          refine ⟨s2, ?_, m2, c2, o2.trans (update_verts_originalVerts _)⟩
          simp only [List.map_cons, run, BuilderRequest.toRequest, serve, keyboard_c,
            Option.bind_eq_bind, Option.some_bind]
          exact h2

theorem det4 [CommRing α] (a b c d e f g h i j k l m n o p : α) :
    Matrix.det (Matrix.of ![![a, b, c, d], ![e, f, g, h], ![i, j, k, l], ![m, n, o, p]])
      = a * (f * (k * p - l * o) - g * (j * p - l * n) + h * (j * o - k * n))
        - b * (e * (k * p - l * o) - g * (i * p - l * m) + h * (i * o - k * m))
        + c * (e * (j * p - l * n) - f * (i * p - l * m) + h * (i * n - j * m))
        - d * (e * (j * o - k * n) - f * (i * o - k * m) + g * (i * n - j * m)) := by
  have h2 : (Fin.castSucc (2 : Fin 3) : Fin 4) = 2 := rfl
  rw [Matrix.det_succ_row_zero]
  simp +decide [Fin.sum_univ_succ, Matrix.det_fin_three, Fin.succAbove, Matrix.submatrix, h2]
  ring

theorem of_mat_mul [CommRing α] (a b out : mat4 α) :
    Matrix.of (mat_mul a b out) = Matrix.of a * Matrix.of b := by
  ext r c
  simp [Matrix.mul_apply, mat_mul_apply, Fin.sum_univ_four, add_assoc]

theorem det_mat_mul [CommRing α] (a b out : mat4 α) :
    Matrix.det (Matrix.of (mat_mul a b out))
      = Matrix.det (Matrix.of a) * Matrix.det (Matrix.of b) := by
  rw [of_mat_mul, Matrix.det_mul]

theorem det_identity4 [CommRing α] : Matrix.det (Matrix.of (identity4 : mat4 α)) = 1 := by
  have h : (identity4 : mat4 α)
      = ![![1, 0, 0, 0], ![0, 1, 0, 0], ![0, 0, 1, 0], ![0, 0, 0, 1]] := by
    funext r c
    fin_cases r <;> fin_cases c <;> rfl
  rw [h, det4]
  ring

theorem det_translation_matrix [CommRing α] (tx ty tz : α) (out : mat4 α) :
    Matrix.det (Matrix.of (translation_matrix tx ty tz out)) = 1 := by
  rw [translation_matrix_eq, det4]
  ring

theorem det_scaling_matrix [CommRing α] (sx sy sz : α) (out : mat4 α) :
    Matrix.det (Matrix.of (scaling_matrix sx sy sz out)) = sx * sy * sz := by
  rw [scaling_matrix_eq, det4]
  ring

theorem det_shear_matrix [CommRing α] (shearType : Int) (sh : α) (out : mat4 α) :
    Matrix.det (Matrix.of (shear_matrix shearType sh out)) = 1 := by
  rw [shear_matrix_eq]
  split_ifs <;> first
    | (rw [det4]; ring)
    | exact det_identity4

theorem det_reflection_matrix [CommRing α] (axis : Int) (out : mat4 α) :
    Matrix.det (Matrix.of (reflection_matrix axis out))
      = if axis = chr 'x' ∨ axis = chr 'X' ∨ axis = chr 'y' ∨ axis = chr 'Y' ∨
          axis = chr 'z' ∨ axis = chr 'Z' then -1 else 1 := by
  rw [reflection_matrix_eq]
  by_cases h1 : axis = chr 'x' ∨ axis = chr 'X'
  · have h : axis = chr 'x' ∨ axis = chr 'X' ∨ axis = chr 'y' ∨ axis = chr 'Y' ∨
        axis = chr 'z' ∨ axis = chr 'Z' := by tauto
    rw [if_pos h1, if_pos h, det4]
    ring
  · by_cases h2 : axis = chr 'y' ∨ axis = chr 'Y'
    · have h : axis = chr 'x' ∨ axis = chr 'X' ∨ axis = chr 'y' ∨ axis = chr 'Y' ∨
          axis = chr 'z' ∨ axis = chr 'Z' := by tauto
      rw [if_neg h1, if_pos h2, if_pos h, det4]
      ring
    · by_cases h3 : axis = chr 'z' ∨ axis = chr 'Z'
      · have h : axis = chr 'x' ∨ axis = chr 'X' ∨ axis = chr 'y' ∨ axis = chr 'Y' ∨
            axis = chr 'z' ∨ axis = chr 'Z' := by tauto
        rw [if_neg h1, if_neg h2, if_pos h3, if_pos h, det4]
        ring
      · have h : ¬ (axis = chr 'x' ∨ axis = chr 'X' ∨ axis = chr 'y' ∨ axis = chr 'Y' ∨
            axis = chr 'z' ∨ axis = chr 'Z') := by tauto
        rw [if_neg h1, if_neg h2, if_neg h3, if_neg h]
        exact det_identity4

theorem det_rotation_matrix (d : ℝ) (out : mat4 ℝ) :
    Matrix.det (Matrix.of (rotation_x_matrix Real.cos Real.sin d out)) = 1 ∧
    Matrix.det (Matrix.of (rotation_y_matrix Real.cos Real.sin d out)) = 1 ∧
    Matrix.det (Matrix.of (rotation_z_matrix Real.cos Real.sin d out)) = 1 := by
  have h := Real.sin_sq_add_cos_sq (d * DEG2RAD)
  refine ⟨?_, ?_, ?_⟩
  · rw [rotation_x_matrix_eq, det4]
    linear_combination h
  · rw [rotation_y_matrix_eq, det4]
    linear_combination h
  · rw [rotation_z_matrix_eq, det4]
    linear_combination h

theorem mat_vec_mul_injective [Field α] (m : mat4 α) (hm : Matrix.det (Matrix.of m) ≠ 0)
    (v w o1 o2 : vec4 α) (h : mat_vec_mul m v o1 = mat_vec_mul m w o2) : v = w := by
  have hinj : Function.Injective (Matrix.mulVec (Matrix.of m)) :=
    Matrix.mulVec_injective_iff_isUnit.mpr
      ((Matrix.isUnit_iff_isUnit_det _).mpr (isUnit_iff_ne_zero.mpr hm))
  apply hinj
  funext r
  have hr := congrFun h r
  rw [mat_vec_mul_apply, mat_vec_mul_apply] at hr
  simpa [Matrix.mulVec, Matrix.dotProduct, Fin.sum_univ_four, add_assoc] using hr

theorem init_cube_injective [Field α] [CharZero α] (s0 : State α) :
    Function.Injective (init_cube s0).originalVerts := by
  have hne : (0.7 : α) ≠ -0.7 := by norm_num
  have hne1 : -(0.7 : α) ≠ 0.7 := by norm_num
  intro i j hij
  rw [init_cube_originalVerts] at hij
  have h0 := congrFun hij 0
  have h1 := congrFun hij 1
  have h2 := congrFun hij 2
  fin_cases i <;> fin_cases j <;>
    first
      | rfl
      | exact absurd h0 hne
      | exact absurd h0 hne1
      | exact absurd h1 hne
      | exact absurd h1 hne1
      | exact absurd h2 hne
      | exact absurd h2 hne1

theorem keyboard_step (key : Nat) (x y : Int) (M tmp : mat4 ℝ) (s : State ℝ) :
    keyboard Real.cos Real.sin key x y M tmp s = none ∨
    keyboard Real.cos Real.sin key x y M tmp s = some s ∨
    keyboard Real.cos Real.sin key x y M tmp s
      = some (update_verts { s with model := mat_identity s.model }) ∨
    ∃ T : mat4 ℝ, Matrix.det (Matrix.of T) ≠ 0 ∧
      keyboard Real.cos Real.sin key x y M tmp s = some (apply_transform T tmp s) := by
  have hs1 : Matrix.det (Matrix.of (scaling_matrix (1.1 : ℝ) 1.1 1.1 M)) ≠ 0 := by
    rw [det_scaling_matrix]
    norm_num
  have hs2 : Matrix.det (Matrix.of (scaling_matrix (0.9 : ℝ) 0.9 0.9 M)) ≠ 0 := by
    rw [det_scaling_matrix]
    norm_num
  have hrx : ∀ d : ℝ, Matrix.det (Matrix.of (rotation_x_matrix Real.cos Real.sin d M)) ≠ 0 :=
    fun d => by rw [(det_rotation_matrix d M).1]; exact one_ne_zero
  have hry : ∀ d : ℝ, Matrix.det (Matrix.of (rotation_y_matrix Real.cos Real.sin d M)) ≠ 0 :=
    fun d => by rw [(det_rotation_matrix d M).2.1]; exact one_ne_zero
  have hrz : ∀ d : ℝ, Matrix.det (Matrix.of (rotation_z_matrix Real.cos Real.sin d M)) ≠ 0 :=
    fun d => by rw [(det_rotation_matrix d M).2.2]; exact one_ne_zero
  have hf : ∀ axis : Int, Matrix.det (Matrix.of (reflection_matrix axis M : mat4 ℝ)) ≠ 0 := by
    intro axis
    rw [det_reflection_matrix]
    split_ifs <;> norm_num
  have hsh : ∀ t : Int, Matrix.det (Matrix.of (shear_matrix t (0.3 : ℝ) M)) ≠ 0 :=
    fun t => by rw [det_shear_matrix]; exact one_ne_zero
  have key : ∀ r : Option (State ℝ), r = keyboard Real.cos Real.sin key x y M tmp s →
      (r = none ∨ r = some s ∨
        r = some (update_verts { s with model := mat_identity s.model }) ∨
        ∃ T : mat4 ℝ, Matrix.det (Matrix.of T) ≠ 0 ∧ r = some (apply_transform T tmp s)) := by
    intro r hr
    unfold keyboard at hr
    by_cases c1 : key = 27 ∨ (key : Int) = chr 'q'
    · rw [if_pos c1] at hr
      exact Or.inl hr
    rw [if_neg c1] at hr
    by_cases c2 : (key : Int) = chr 'c'
    · rw [if_pos c2] at hr
      exact Or.inr (Or.inr (Or.inl hr))
    rw [if_neg c2] at hr
    by_cases c3 : (key : Int) = chr '+' ∨ (key : Int) = chr '='
    · rw [if_pos c3] at hr
      exact Or.inr (Or.inr (Or.inr ⟨_, hs1, hr⟩))
    rw [if_neg c3] at hr
    by_cases c4 : (key : Int) = chr '-'
    · rw [if_pos c4] at hr
      exact Or.inr (Or.inr (Or.inr ⟨_, hs2, hr⟩))
    rw [if_neg c4] at hr
    by_cases c5 : (key : Int) = chr 'x'
    · rw [if_pos c5] at hr
      exact Or.inr (Or.inr (Or.inr ⟨_, hrx _, hr⟩))
    rw [if_neg c5] at hr
    by_cases c6 : (key : Int) = chr 'X'
    · rw [if_pos c6] at hr
      exact Or.inr (Or.inr (Or.inr ⟨_, hrx _, hr⟩))
    rw [if_neg c6] at hr
    by_cases c7 : (key : Int) = chr 'y'
    · rw [if_pos c7] at hr
      exact Or.inr (Or.inr (Or.inr ⟨_, hry _, hr⟩))
    rw [if_neg c7] at hr
    by_cases c8 : (key : Int) = chr 'Y'
    · rw [if_pos c8] at hr
      exact Or.inr (Or.inr (Or.inr ⟨_, hry _, hr⟩))
    rw [if_neg c8] at hr
    by_cases c9 : (key : Int) = chr 'z'
    · rw [if_pos c9] at hr
      exact Or.inr (Or.inr (Or.inr ⟨_, hrz _, hr⟩))
    rw [if_neg c9] at hr
    by_cases c10 : (key : Int) = chr 'Z'
    · rw [if_pos c10] at hr
      exact Or.inr (Or.inr (Or.inr ⟨_, hrz _, hr⟩))
    rw [if_neg c10] at hr
    by_cases c11 : (key : Int) = chr 'F'
    · rw [if_pos c11] at hr
      exact Or.inr (Or.inr (Or.inr ⟨_, hf _, hr⟩))
    rw [if_neg c11] at hr
    by_cases c12 : (key : Int) = chr 'G'
    · rw [if_pos c12] at hr
      exact Or.inr (Or.inr (Or.inr ⟨_, hf _, hr⟩))
    rw [if_neg c12] at hr
    by_cases c13 : (key : Int) = chr 'H'
    · rw [if_pos c13] at hr
      exact Or.inr (Or.inr (Or.inr ⟨_, hf _, hr⟩))
    rw [if_neg c13] at hr
    by_cases c14 : (key : Int) = chr '1' ∨ (key : Int) = chr '2' ∨ (key : Int) = chr '3' ∨
        (key : Int) = chr '4' ∨ (key : Int) = chr '5' ∨ (key : Int) = chr '6'
    · rw [if_pos c14] at hr
      exact Or.inr (Or.inr (Or.inr ⟨_, hsh _, hr⟩))
    rw [if_neg c14] at hr
    exact Or.inr (Or.inl hr)
  exact key _ rfl

theorem special_step (K : GlutKeys) (key x y : Int) (M tmp : mat4 ℝ) (s : State ℝ) :
    special K key x y M tmp s = s ∨
    ∃ T : mat4 ℝ, Matrix.det (Matrix.of T) ≠ 0 ∧
      special K key x y M tmp s = apply_transform T tmp s := by
  have ht : ∀ tx ty tz : ℝ, Matrix.det (Matrix.of (translation_matrix tx ty tz M)) ≠ 0 :=
    fun tx ty tz => by rw [det_translation_matrix]; exact one_ne_zero
  have key : ∀ r : State ℝ, r = special K key x y M tmp s →
      (r = s ∨ ∃ T : mat4 ℝ, Matrix.det (Matrix.of T) ≠ 0 ∧ r = apply_transform T tmp s) := by
    intro r hr
    unfold special at hr
    by_cases c1 : key = K.GLUT_KEY_LEFT
    · rw [if_pos c1] at hr
      exact Or.inr ⟨_, ht _ _ _, hr⟩
    rw [if_neg c1] at hr
    by_cases c2 : key = K.GLUT_KEY_RIGHT
    · rw [if_pos c2] at hr
      exact Or.inr ⟨_, ht _ _ _, hr⟩
    rw [if_neg c2] at hr
    by_cases c3 : key = K.GLUT_KEY_UP
    · rw [if_pos c3] at hr
      exact Or.inr ⟨_, ht _ _ _, hr⟩
    rw [if_neg c3] at hr
    by_cases c4 : key = K.GLUT_KEY_DOWN
    · rw [if_pos c4] at hr
      exact Or.inr ⟨_, ht _ _ _, hr⟩
    rw [if_neg c4] at hr
    by_cases c5 : key = K.GLUT_KEY_PAGE_UP
    · rw [if_pos c5] at hr
      exact Or.inr ⟨_, ht _ _ _, hr⟩
    rw [if_neg c5] at hr
    by_cases c6 : key = K.GLUT_KEY_PAGE_DOWN
    · rw [if_pos c6] at hr
      exact Or.inr ⟨_, ht _ _ _, hr⟩
    rw [if_neg c6] at hr
    exact Or.inl hr
  exact key _ rfl

theorem apply_transform_regular (T tmp : mat4 ℝ) (s : State ℝ)
    (hT : Matrix.det (Matrix.of T) ≠ 0) (hd : Matrix.det (Matrix.of s.model) ≠ 0) :
    Matrix.det (Matrix.of (apply_transform T tmp s).model) ≠ 0 := by
  rw [apply_transform_model T tmp tmp, det_mat_mul]
  exact mul_ne_zero hT hd

theorem reset_regular (s : State ℝ) :
    Matrix.det (Matrix.of (update_verts { s with model := mat_identity s.model }).model) ≠ 0 := by
  rw [update_verts_model]
  simp only [mat_identity_eq]
  rw [det_identity4]
  exact one_ne_zero

theorem drive_regular (K : GlutKeys) (es : List (KeyEvent ℝ)) (s : State ℝ)
    (hd : Matrix.det (Matrix.of s.model) ≠ 0) (hc : Consistent s) :
    Matrix.det (Matrix.of (drive Real.cos Real.sin K s es).model) ≠ 0 ∧
    Consistent (drive Real.cos Real.sin K s es) ∧
    (drive Real.cos Real.sin K s es).originalVerts = s.originalVerts := by
  induction es generalizing s with
  | nil => exact ⟨hd, hc, rfl⟩
  | cons e es ih =>
      cases e with
      | key k x y M tmp =>
          rcases keyboard_step k x y M tmp s with h | h | h | ⟨T, hT, h⟩
          · simp only [drive, handle, h]
            exact ⟨hd, hc, trivial⟩
          · simp only [drive, handle, h]
            exact ih s hd hc
          · simp only [drive, handle, h]
            obtain ⟨d1, c1, o1⟩ := ih _ (reset_regular s) (update_verts_consistent _)
            exact ⟨d1, c1, o1.trans (update_verts_originalVerts _)⟩
          · simp only [drive, handle, h]
            obtain ⟨d1, c1, o1⟩ := ih _ (apply_transform_regular T tmp s hT hd)
              (update_verts_consistent _)
            exact ⟨d1, c1, o1.trans (apply_transform_originalVerts _ _ _)⟩
      | specialKey k x y M tmp =>
          rcases special_step K k x y M tmp s with h | ⟨T, hT, h⟩
          · simp only [drive, handle, h]
            exact ih s hd hc
          · simp only [drive, handle, h]
            obtain ⟨d1, c1, o1⟩ := ih _ (apply_transform_regular T tmp s hT hd)
              (update_verts_consistent _)
            exact ⟨d1, c1, o1.trans (apply_transform_originalVerts _ _ _)⟩

theorem Flt.zero_def : (0 : Flt) = Flt.fin 0 := rfl

theorem Flt.one_def : (1 : Flt) = Flt.fin 1 := rfl

theorem Flt.fin_add_fin (a b : ℚ) : Flt.fin a + Flt.fin b = Flt.ofRat (a + b) := rfl

theorem Flt.fin_mul_fin (a b : ℚ) : Flt.fin a * Flt.fin b = Flt.ofRat (a * b) := rfl

theorem Flt.fin_mul_pinf (a : ℚ) : Flt.fin a * Flt.pinf = Flt.scaleInf true a := rfl

theorem Flt.fin_add_pinf (a : ℚ) : Flt.fin a + Flt.pinf = Flt.pinf := rfl

theorem Flt.pinf_add_fin (a : ℚ) : Flt.pinf + Flt.fin a = Flt.pinf := rfl

theorem Flt.nan_ne_fin (q : ℚ) : Flt.nan ≠ Flt.fin q := fun h => Flt.noConfusion h

theorem Flt.fin_add_nan (a : ℚ) : Flt.fin a + Flt.nan = Flt.nan := rfl

theorem Flt.nan_add (a : Flt) : Flt.nan + a = Flt.nan := rfl

theorem Flt.nan_mul (a : Flt) : Flt.nan * a = Flt.nan := rfl

theorem Flt.ofRat_zero : Flt.ofRat 0 = Flt.fin 0 := by
  unfold Flt.ofRat Flt.overflow
  norm_num

theorem Flt.ofRat_one : Flt.ofRat 1 = Flt.fin 1 := by
  unfold Flt.ofRat Flt.overflow
  norm_num

theorem Flt.ofRat_two_pow_100 : Flt.ofRat (2 ^ 100) = Flt.fin (2 ^ 100) := by
  unfold Flt.ofRat Flt.overflow
  norm_num

theorem Flt.ofRat_two_pow_200 : Flt.ofRat (2 ^ 200) = Flt.pinf := by
  unfold Flt.ofRat Flt.overflow
  norm_num

theorem Flt.scaleInf_zero (p : Bool) : Flt.scaleInf p 0 = Flt.nan := by
  simp [Flt.scaleInf]

theorem overflow_scaling_eq :
    overflow_scaling
      = ![![Flt.fin (2 ^ 100), 0, 0, 0], ![0, Flt.fin (2 ^ 100), 0, 0],
          ![0, 0, Flt.fin (2 ^ 100), 0], ![0, 0, 0, 1]] :=
  scaling_matrix_eq _ _ _ _

theorem overflow_step_one (out : mat4 Flt) :
    mat_mul overflow_scaling identity4 out
      = ![![Flt.fin (2 ^ 100), 0, 0, 0], ![0, Flt.fin (2 ^ 100), 0, 0],
          ![0, 0, Flt.fin (2 ^ 100), 0], ![0, 0, 0, 1]] := by
  rw [overflow_scaling_eq]
  apply mat4_ext <;> apply vec4_ext <;>
    simp [-Matrix.cons_val', mat_mul_apply, identity4, Flt.zero_def, Flt.one_def,
      Flt.fin_add_fin, Flt.fin_mul_fin, Flt.ofRat_zero, Flt.ofRat_one, Flt.ofRat_two_pow_100]

theorem overflow_step_two (out : mat4 Flt) :
    mat_mul overflow_scaling
        ![![Flt.fin (2 ^ 100), 0, 0, 0], ![0, Flt.fin (2 ^ 100), 0, 0],
          ![0, 0, Flt.fin (2 ^ 100), 0], ![0, 0, 0, 1]] out
      = ![![Flt.pinf, 0, 0, 0], ![0, Flt.pinf, 0, 0], ![0, 0, Flt.pinf, 0], ![0, 0, 0, 1]] := by
  have h200 : (2 : ℚ) ^ 100 * 2 ^ 100 = 2 ^ 200 := by norm_num
  rw [overflow_scaling_eq]
  apply mat4_ext <;> apply vec4_ext <;>
    simp [-Matrix.cons_val', mat_mul_apply, Flt.zero_def, Flt.one_def,
      Flt.fin_add_fin, Flt.fin_mul_fin, Flt.ofRat_zero, Flt.ofRat_one, Flt.ofRat_two_pow_100,
      h200, Flt.ofRat_two_pow_200, Flt.fin_add_pinf, Flt.pinf_add_fin]

theorem overflow_step_three (out : mat4 Flt) :
    (mat_mul overflow_scaling
        ![![Flt.pinf, 0, 0, 0], ![0, Flt.pinf, 0, 0], ![0, 0, Flt.pinf, 0], ![0, 0, 0, 1]]
        out) 3
      = ![Flt.nan, Flt.nan, Flt.nan, 1] := by
  rw [overflow_scaling_eq]
  apply vec4_ext <;>
    simp [-Matrix.cons_val', mat_mul_apply, Flt.zero_def, Flt.one_def,
      Flt.fin_add_fin, Flt.fin_mul_fin, Flt.ofRat_zero, Flt.ofRat_one, Flt.fin_mul_pinf,
      Flt.scaleInf_zero, Flt.fin_add_nan, Flt.nan_add]

theorem overflow_state_model_row :
    overflow_state.model 3 = ![Flt.nan, Flt.nan, Flt.nan, 1] := by
  unfold overflow_state
  rw [apply_transform_model _ _ (fun _ _ => 0), apply_transform_model _ _ (fun _ _ => 0),
    apply_transform_model _ _ (fun _ _ => 0), init_cube_model, overflow_step_one,
    overflow_step_two, overflow_step_three]

theorem overflow_state_w (i : Fin 8) : overflow_state.cubeVerts i 3 = Flt.nan := by
  have hc : Consistent overflow_state := update_verts_consistent _
  rw [hc i (fun _ => 0), mat_vec_mul_apply, overflow_state_model_row]
  simp only [Matrix.cons_val_zero, Flt.nan_mul, Flt.nan_add]

end Auxiliary

/-! ## Matrix and vector algebra, builders -/

section Algebra

variable {α : Type}

/-- C6. `mat_mul` computes the standard matrix product,
`out[r][c] = sum over k of a[r][k] * b[k][c]`.  On memory, where `a`, `b` and
`out` are addresses that may coincide, the matrix stored at `out` afterwards is
the product of the matrices stored at `a` and `b` before the call, also when
`out` is `a` or `b`, and every matrix stored elsewhere, in particular an input
that is not the destination, is unchanged. -/
theorem mat_mul_product [CommRing α] (a b out : mat4 α) (μ : Mem α) (pa pb pout : Nat) :
    (∀ r c : Fin 4, mat_mul a b out r c = ∑ k : Fin 4, a r k * b k c) ∧
    (∀ (p : Nat) (r c : Fin 4), mat_mul_at μ pa pb pout p r c
      = if p = pout then ∑ k : Fin 4, μ pa r k * μ pb k c else μ p r c) ∧
    (∀ r c : Fin 4, mat_mul_at μ pa pb pa pa r c = ∑ k : Fin 4, μ pa r k * μ pb k c) ∧
    (∀ r c : Fin 4, mat_mul_at μ pa pb pb pb r c = ∑ k : Fin 4, μ pa r k * μ pb k c) := by
  have hsum : ∀ (x y : mat4 α) (r c : Fin 4),
      (List.finRange 4).foldl (fun acc k => acc + x r k * y k c) 0
        = ∑ k : Fin 4, x r k * y k c := by
    intro x y r c
    simp [finRange_four, Fin.sum_univ_four]
  refine ⟨?_, ?_, ?_, ?_⟩
  · intro r c
    exact hsum a b r c
  · intro p r c
    by_cases hp : p = pout
    · simp only [mat_mul_at, memcpy, hp, if_true]
      exact hsum _ _ r c
    · simp only [mat_mul_at, hp, if_false]
  · intro r c
    simp only [mat_mul_at, memcpy, if_true]
    exact hsum _ _ r c
  · intro r c
    simp only [mat_mul_at, memcpy, if_true]
    exact hsum _ _ r c

/-- C10. `translation_matrix(tx, ty, tz)` is the identity matrix with entries
`[0][3]`, `[1][3]`, `[2][3]` set to `tx`, `ty`, `tz` and every other entry at
its identity value; `mat_vec_mul` of it maps every point `(x, y, z, 1)` to
`(x + tx, y + ty, z + tz, 1)`. -/
theorem translation_matrix_spec [CommRing α] (tx ty tz x y z : α) (out : mat4 α)
    (o : vec4 α) :
    (∀ r c : Fin 4, translation_matrix tx ty tz out r c
      = if r = 0 ∧ c = 3 then tx
        else if r = 1 ∧ c = 3 then ty
        else if r = 2 ∧ c = 3 then tz
        else if r = c then 1 else 0) ∧
    translation_matrix tx ty tz out
      = ![![1, 0, 0, tx], ![0, 1, 0, ty], ![0, 0, 1, tz], ![0, 0, 0, 1]] ∧
    mat_vec_mul (translation_matrix tx ty tz out) ![x, y, z, 1] o
      = ![x + tx, y + ty, z + tz, 1] := by
  refine ⟨?_, translation_matrix_eq tx ty tz out, ?_⟩
  · intro r c
    fin_cases r <;> fin_cases c <;> rfl
  · funext r
    fin_cases r <;>
      simp [mat_vec_mul_apply, translation_matrix, mat_set, mat_identity_apply]

/-- C11. `scaling_matrix(sx, sy, sz)` is, for all values of `sx`, `sy`, `sz`
(zero and negative ones included), the matrix with diagonal `(sx, sy, sz, 1)`
and every off-diagonal entry 0; it maps every `(x, y, z, w)` to
`(sx*x, sy*y, sz*z, w)`. -/
theorem scaling_matrix_spec [CommRing α] (sx sy sz x y z w : α) (out : mat4 α)
    (o : vec4 α) :
    (∀ r c : Fin 4, scaling_matrix sx sy sz out r c
      = if r = c then ![sx, sy, sz, 1] r else 0) ∧
    scaling_matrix sx sy sz out
      = ![![sx, 0, 0, 0], ![0, sy, 0, 0], ![0, 0, sz, 0], ![0, 0, 0, 1]] ∧
    mat_vec_mul (scaling_matrix sx sy sz out) ![x, y, z, w] o
      = ![sx * x, sy * y, sz * z, w] := by
  refine ⟨?_, scaling_matrix_eq sx sy sz out, ?_⟩
  · intro r c
    fin_cases r <;> fin_cases c <;> rfl
  · funext r
    fin_cases r <;>
      simp [mat_vec_mul_apply, scaling_matrix, mat_set, mat_identity_apply]

/-- C15. `reflection_matrix(axis)` is total and selector-driven: for axis
`'x'`/`'X'`, `'y'`/`'Y'`, `'z'`/`'Z'` it returns the identity with exactly the
diagonal entry `[0][0]`, `[1][1]`, `[2][2]` negated, so that it maps
`(x, y, z, w)` to `(-x, y, z, w)`, `(x, -y, z, w)`, `(x, y, -z, w)`; for every
other axis value it returns exactly the identity matrix. -/
theorem reflection_matrix_spec [CommRing α] (axis : Int) (x y z w : α) (out : mat4 α)
    (o : vec4 α) :
    reflection_matrix axis out
      = (if axis = chr 'x' ∨ axis = chr 'X' then
          ![![-1, 0, 0, 0], ![0, 1, 0, 0], ![0, 0, 1, 0], ![0, 0, 0, 1]]
        else if axis = chr 'y' ∨ axis = chr 'Y' then
          ![![1, 0, 0, 0], ![0, -1, 0, 0], ![0, 0, 1, 0], ![0, 0, 0, 1]]
        else if axis = chr 'z' ∨ axis = chr 'Z' then
          ![![1, 0, 0, 0], ![0, 1, 0, 0], ![0, 0, -1, 0], ![0, 0, 0, 1]]
        else identity4) ∧
    mat_vec_mul (reflection_matrix axis out) ![x, y, z, w] o
      = (if axis = chr 'x' ∨ axis = chr 'X' then ![-x, y, z, w]
        else if axis = chr 'y' ∨ axis = chr 'Y' then ![x, -y, z, w]
        else if axis = chr 'z' ∨ axis = chr 'Z' then ![x, y, -z, w]
        else ![x, y, z, w]) := by
  have key : reflection_matrix axis out = _ := reflection_matrix_eq axis out
  refine ⟨key, ?_⟩
  rw [key]
  split_ifs <;>
    (apply vec4_ext <;> simp [-Matrix.cons_val', mat_vec_mul_apply, identity4])

/-- C17. `shear_matrix(type, sh)` is total and selector-driven: for type 1..6
it returns the identity with exactly one off-diagonal entry set to `sh`, which
realises on every point `(x, y, z, 1)` respectively `x += sh*y`, `x += sh*z`,
`y += sh*x`, `y += sh*z`, `z += sh*x`, `z += sh*y` with the other coordinates
and `w` unchanged; for every other integer type it returns exactly the
identity.  `shear_matrix(1, 0.5)` applied to `(0, 2, 0, 1)` gives
`(1, 2, 0, 1)`. -/
theorem shear_matrix_spec [CommRing α] (shearType : Int) (sh x y z : α) (out : mat4 α)
    (o : vec4 α) (outq : mat4 ℚ) (oq : vec4 ℚ) :
    shear_matrix shearType sh out
      = (if shearType = 1 then ![![1, sh, 0, 0], ![0, 1, 0, 0], ![0, 0, 1, 0], ![0, 0, 0, 1]]
        else if shearType = 2 then
          ![![1, 0, sh, 0], ![0, 1, 0, 0], ![0, 0, 1, 0], ![0, 0, 0, 1]]
        else if shearType = 3 then
          ![![1, 0, 0, 0], ![sh, 1, 0, 0], ![0, 0, 1, 0], ![0, 0, 0, 1]]
        else if shearType = 4 then
          ![![1, 0, 0, 0], ![0, 1, sh, 0], ![0, 0, 1, 0], ![0, 0, 0, 1]]
        else if shearType = 5 then
          ![![1, 0, 0, 0], ![0, 1, 0, 0], ![sh, 0, 1, 0], ![0, 0, 0, 1]]
        else if shearType = 6 then
          ![![1, 0, 0, 0], ![0, 1, 0, 0], ![0, sh, 1, 0], ![0, 0, 0, 1]]
        else identity4) ∧
    mat_vec_mul (shear_matrix shearType sh out) ![x, y, z, 1] o
      = (if shearType = 1 then ![x + sh * y, y, z, 1]
        else if shearType = 2 then ![x + sh * z, y, z, 1]
        else if shearType = 3 then ![x, y + sh * x, z, 1]
        else if shearType = 4 then ![x, y + sh * z, z, 1]
        else if shearType = 5 then ![x, y, z + sh * x, 1]
        else if shearType = 6 then ![x, y, z + sh * y, 1]
        else ![x, y, z, 1]) ∧
    mat_vec_mul (shear_matrix 1 0.5 outq) ![0, 2, 0, 1] oq = ![1, 2, 0, 1] := by
  refine ⟨shear_matrix_eq shearType sh out, ?_, ?_⟩
  · rw [shear_matrix_eq]
    split_ifs <;>
      (apply vec4_ext <;> simp [-Matrix.cons_val', mat_vec_mul_apply, identity4] <;> ring)
  · rw [shear_matrix_eq]
    apply vec4_ext <;> norm_num [-Matrix.cons_val', mat_vec_mul_apply]

end Algebra

/-! ## Rotations, reflections and the order of composition -/

section Rotations

variable {α : Type}

/-- C12. Rotation builders are angle-additive when `sin` and `cos` are the real
functions and arithmetic is exact: for each of `rotation_x_matrix`,
`rotation_y_matrix`, `rotation_z_matrix` and all angles `a`, `b` in degrees,
`mat_mul(R(a), R(b))` equals `R(a + b)`. -/
theorem rotation_additive (a b : ℝ) (o1 o2 o3 o4 : mat4 ℝ) :
    mat_mul (rotation_x_matrix Real.cos Real.sin a o1)
        (rotation_x_matrix Real.cos Real.sin b o2) o3
      = rotation_x_matrix Real.cos Real.sin (a + b) o4 ∧
    mat_mul (rotation_y_matrix Real.cos Real.sin a o1)
        (rotation_y_matrix Real.cos Real.sin b o2) o3
      = rotation_y_matrix Real.cos Real.sin (a + b) o4 ∧
    mat_mul (rotation_z_matrix Real.cos Real.sin a o1)
        (rotation_z_matrix Real.cos Real.sin b o2) o3
      = rotation_z_matrix Real.cos Real.sin (a + b) o4 := by
  refine ⟨?_, ?_, ?_⟩
  · funext r c
    fin_cases r <;> fin_cases c <;>
      simp [mat_mul_apply, rotation_x_matrix, mat_set, mat_identity_apply, add_mul,
        Real.cos_add, Real.sin_add] <;> ring
  · funext r c
    fin_cases r <;> fin_cases c <;>
      simp [mat_mul_apply, rotation_y_matrix, mat_set, mat_identity_apply, add_mul,
        Real.cos_add, Real.sin_add] <;> ring
  · funext r c
    fin_cases r <;> fin_cases c <;>
      simp [mat_mul_apply, rotation_z_matrix, mat_set, mat_identity_apply, add_mul,
        Real.cos_add, Real.sin_add] <;> ring

/-- C13. Rotation builders are orthogonal when `sin` and `cos` are the real
functions and arithmetic is exact: for each axis and every angle `a` the matrix
`R` produced satisfies `mat_mul(R, transpose(R)) = identity =
mat_mul(transpose(R), R)`, the matrix built for `-a` is `transpose(R)`, hence
the inverse of `R`, and every entry outside the rotated 2x2 block has its
identity value. -/
theorem rotation_orthogonal (a : ℝ) (o1 o2 o3 : mat4 ℝ) :
    (mat_mul (rotation_x_matrix Real.cos Real.sin a o1)
        (transpose4 (rotation_x_matrix Real.cos Real.sin a o1)) o2 = identity4 ∧
      mat_mul (transpose4 (rotation_x_matrix Real.cos Real.sin a o1))
        (rotation_x_matrix Real.cos Real.sin a o1) o2 = identity4 ∧
      rotation_x_matrix Real.cos Real.sin (-a) o3
        = transpose4 (rotation_x_matrix Real.cos Real.sin a o1) ∧
      mat_mul (rotation_x_matrix Real.cos Real.sin (-a) o3)
        (rotation_x_matrix Real.cos Real.sin a o1) o2 = identity4 ∧
      mat_mul (rotation_x_matrix Real.cos Real.sin a o1)
        (rotation_x_matrix Real.cos Real.sin (-a) o3) o2 = identity4 ∧
      rotation_x_matrix Real.cos Real.sin a o1
        = ![![1, 0, 0, 0],
            ![0, Real.cos (a * DEG2RAD), -Real.sin (a * DEG2RAD), 0],
            ![0, Real.sin (a * DEG2RAD), Real.cos (a * DEG2RAD), 0],
            ![0, 0, 0, 1]]) ∧
    (mat_mul (rotation_y_matrix Real.cos Real.sin a o1)
        (transpose4 (rotation_y_matrix Real.cos Real.sin a o1)) o2 = identity4 ∧
      mat_mul (transpose4 (rotation_y_matrix Real.cos Real.sin a o1))
        (rotation_y_matrix Real.cos Real.sin a o1) o2 = identity4 ∧
      rotation_y_matrix Real.cos Real.sin (-a) o3
        = transpose4 (rotation_y_matrix Real.cos Real.sin a o1) ∧
      mat_mul (rotation_y_matrix Real.cos Real.sin (-a) o3)
        (rotation_y_matrix Real.cos Real.sin a o1) o2 = identity4 ∧
      mat_mul (rotation_y_matrix Real.cos Real.sin a o1)
        (rotation_y_matrix Real.cos Real.sin (-a) o3) o2 = identity4 ∧
      rotation_y_matrix Real.cos Real.sin a o1
        = ![![Real.cos (a * DEG2RAD), 0, Real.sin (a * DEG2RAD), 0],
            ![0, 1, 0, 0],
            ![-Real.sin (a * DEG2RAD), 0, Real.cos (a * DEG2RAD), 0],
            ![0, 0, 0, 1]]) ∧
    (mat_mul (rotation_z_matrix Real.cos Real.sin a o1)
        (transpose4 (rotation_z_matrix Real.cos Real.sin a o1)) o2 = identity4 ∧
      mat_mul (transpose4 (rotation_z_matrix Real.cos Real.sin a o1))
        (rotation_z_matrix Real.cos Real.sin a o1) o2 = identity4 ∧
      rotation_z_matrix Real.cos Real.sin (-a) o3
        = transpose4 (rotation_z_matrix Real.cos Real.sin a o1) ∧
      mat_mul (rotation_z_matrix Real.cos Real.sin (-a) o3)
        (rotation_z_matrix Real.cos Real.sin a o1) o2 = identity4 ∧
      mat_mul (rotation_z_matrix Real.cos Real.sin a o1)
        (rotation_z_matrix Real.cos Real.sin (-a) o3) o2 = identity4 ∧
      rotation_z_matrix Real.cos Real.sin a o1
        = ![![Real.cos (a * DEG2RAD), -Real.sin (a * DEG2RAD), 0, 0],
            ![Real.sin (a * DEG2RAD), Real.cos (a * DEG2RAD), 0, 0],
            ![0, 0, 1, 0],
            ![0, 0, 0, 1]]) := by
  obtain ⟨x1, x2, x3⟩ := rotation_x_orthogonal a o1 o2 o3
  obtain ⟨y1, y2, y3⟩ := rotation_y_orthogonal a o1 o2 o3
  obtain ⟨z1, z2, z3⟩ := rotation_z_orthogonal a o1 o2 o3
  refine ⟨⟨x1, x2, x3, ?_, ?_, rotation_x_matrix_eq _ _ a o1⟩,
    ⟨y1, y2, y3, ?_, ?_, rotation_y_matrix_eq _ _ a o1⟩,
    ⟨z1, z2, z3, ?_, ?_, rotation_z_matrix_eq _ _ a o1⟩⟩
  · rw [x3]; exact x2
  · rw [x3]; exact x1
  · rw [y3]; exact y2
  · rw [y3]; exact y1
  · rw [z3]; exact z2
  · rw [z3]; exact z1

/-- C14. Rotation sense is right-handed and the same for the three axes, with
the angle taken in degrees (multiplied by `M_PI / 180`): with the real `sin` and
`cos` and exact arithmetic, for every angle the `z` rotation takes `(1,0,0,1)`
to `(cos, sin, 0, 1)`, the `x` rotation takes `(0,1,0,1)` to `(0, cos, sin, 1)`
and the `y` rotation takes `(0,0,1,1)` to `(sin, 0, cos, 1)`; at 90 degrees the
three results are `(0,1,0,1)`, `(0,0,1,1)` and `(1,0,0,1)` within `1e-5` in
every coordinate. -/
theorem rotation_right_handed (d : ℝ) (out : mat4 ℝ) (o : vec4 ℝ) :
    mat_vec_mul (rotation_z_matrix Real.cos Real.sin d out) ![1, 0, 0, 1] o
      = ![Real.cos (d * (3.14159265358979323846 / 180)),
          Real.sin (d * (3.14159265358979323846 / 180)), 0, 1] ∧
    mat_vec_mul (rotation_x_matrix Real.cos Real.sin d out) ![0, 1, 0, 1] o
      = ![0, Real.cos (d * (3.14159265358979323846 / 180)),
          Real.sin (d * (3.14159265358979323846 / 180)), 1] ∧
    mat_vec_mul (rotation_y_matrix Real.cos Real.sin d out) ![0, 0, 1, 1] o
      = ![Real.sin (d * (3.14159265358979323846 / 180)), 0,
          Real.cos (d * (3.14159265358979323846 / 180)), 1] ∧
    (∀ k : Fin 4,
      |mat_vec_mul (rotation_z_matrix Real.cos Real.sin 90 out) ![1, 0, 0, 1] o k
        - ![0, 1, 0, 1] k| ≤ 0.00001) ∧
    (∀ k : Fin 4,
      |mat_vec_mul (rotation_x_matrix Real.cos Real.sin 90 out) ![0, 1, 0, 1] o k
        - ![0, 0, 1, 1] k| ≤ 0.00001) ∧
    (∀ k : Fin 4,
      |mat_vec_mul (rotation_y_matrix Real.cos Real.sin 90 out) ![0, 0, 1, 1] o k
        - ![1, 0, 0, 1] k| ≤ 0.00001) := by
  obtain ⟨hc, hs⟩ := quarter_turn_bounds
  have hD : (DEG2RAD : ℝ) = 3.14159265358979323846 / 180 := by
    simp only [DEG2RAD, M_PI]
    norm_num
  refine ⟨?_, ?_, ?_, ?_, ?_, ?_⟩
  · rw [← hD]
    apply vec4_ext <;>
      simp [mat_vec_mul_apply, rotation_z_matrix, mat_set, mat_identity_apply]
  · rw [← hD]
    apply vec4_ext <;>
      simp [mat_vec_mul_apply, rotation_x_matrix, mat_set, mat_identity_apply]
  · rw [← hD]
    apply vec4_ext <;>
      simp [mat_vec_mul_apply, rotation_y_matrix, mat_set, mat_identity_apply]
  · intro k
    fin_cases k <;>
      simp [mat_vec_mul_apply, rotation_z_matrix, mat_set, mat_identity_apply] <;>
      first
        | exact hc
        | exact hs
        | norm_num
  · intro k
    fin_cases k <;>
      simp [mat_vec_mul_apply, rotation_x_matrix, mat_set, mat_identity_apply] <;>
      first
        | exact hc
        | exact hs
        | norm_num
  · intro k
    fin_cases k <;>
      simp [mat_vec_mul_apply, rotation_y_matrix, mat_set, mat_identity_apply] <;>
      first
        | exact hc
        | exact hs
        | norm_num

/-- C18. Composition order is observable, with the real `sin` and `cos` and
exact arithmetic: for `A = rotation_z_matrix(90)` and
`B = translation_matrix(t, 0, 0)` with `t != 0`, the model after
`apply_transform(A); apply_transform(B)` from the initialised state differs from
the model after `apply_transform(B); apply_transform(A)`, and so does every
transformed vertex. -/
theorem composition_order_observable (t : ℝ) (ht : t ≠ 0) (s0 : State ℝ)
    (MA MB tA tB tA1 tB1 : mat4 ℝ) :
    (apply_transform (translation_matrix t 0 0 MB) tB
        (apply_transform (rotation_z_matrix Real.cos Real.sin 90 MA) tA (init_cube s0))).model
      ≠ (apply_transform (rotation_z_matrix Real.cos Real.sin 90 MA) tA1
        (apply_transform (translation_matrix t 0 0 MB) tB1 (init_cube s0))).model ∧
    ∀ i : Fin 8,
      (apply_transform (translation_matrix t 0 0 MB) tB
          (apply_transform (rotation_z_matrix Real.cos Real.sin 90 MA) tA
            (init_cube s0))).cubeVerts i
        ≠ (apply_transform (rotation_z_matrix Real.cos Real.sin 90 MA) tA1
          (apply_transform (translation_matrix t 0 0 MB) tB1 (init_cube s0))).cubeVerts i := by
  have hst : Real.sin ((90 : ℝ) * DEG2RAD) * t ≠ 0 := mul_ne_zero quarter_turn_sin_ne_zero ht
  have hm : ∀ (M tmp : mat4 ℝ) (s : State ℝ),
      (apply_transform M tmp s).model = mat_mul M s.model MA :=
    fun M tmp s => apply_transform_model M tmp MA s
  constructor
  · intro h
    have h13 := congrFun (congrFun h 1) 3
    simp [hm, init_cube_model, mat_mul_apply, translation_matrix, rotation_z_matrix, mat_set,
      mat_identity_apply, identity4] at h13
    rcases h13 with h13 | h13
    · exact quarter_turn_sin_ne_zero h13
    · exact ht h13
  · intro i h
    have hw := init_cube_w s0 i
    have h1 := congrFun h 1
    rw [apply_transform_cubeVerts _ tB MA ((init_cube s0).cubeVerts i),
      apply_transform_cubeVerts _ tA1 MA ((init_cube s0).cubeVerts i)] at h1
    simp [hm, apply_transform_originalVerts, init_cube_model, mat_vec_mul_apply, mat_mul_apply,
      translation_matrix, rotation_z_matrix, mat_set, mat_identity_apply, identity4, hw] at h1
    rcases h1 with h1 | h1
    · exact quarter_turn_sin_ne_zero h1
    · exact ht h1

/-- Witness of C18 for `t = 1`, from the state in which `main` starts. -/
theorem composition_order_observable_witness :
    (1 : ℝ) ≠ 0 ∧
    (apply_transform (translation_matrix 1 0 0 (fun _ _ => 0)) (fun _ _ => 0)
        (apply_transform (rotation_z_matrix Real.cos Real.sin 90 (fun _ _ => 0)) (fun _ _ => 0)
          (init_cube (initial_state : State ℝ)))).model
      ≠ (apply_transform (rotation_z_matrix Real.cos Real.sin 90 (fun _ _ => 0)) (fun _ _ => 0)
        (apply_transform (translation_matrix 1 0 0 (fun _ _ => 0)) (fun _ _ => 0)
          (init_cube (initial_state : State ℝ)))).model :=
  ⟨one_ne_zero,
    (composition_order_observable 1 one_ne_zero initial_state (fun _ _ => 0) (fun _ _ => 0)
      (fun _ _ => 0) (fun _ _ => 0) (fun _ _ => 0) (fun _ _ => 0)).1⟩

end Rotations

/-! ## The cumulative transform state -/

section Engine

variable {α : Type}

/-- C1. Central invariant: in every state reached from `init_cube` by a finite
sequence of `apply_transform(M)` calls, for arbitrary matrices `M`, and of
resets (key `'c'`), such a state exists (no request fails) and every
`cubeVerts[i]` equals `mat_vec_mul(model, originalVerts[i])`.  No law of
arithmetic is used. -/
theorem central_invariant [Zero α] [One α] [Add α] [Mul α] [Neg α] [Div α] [OfScientific α]
    (cosf sinf : α → α) (s0 : State α) (qs : List (Request α)) :
    ∃ s, run cosf sinf (init_cube s0) qs = some s ∧
      ∀ (i : Fin 8) (out : vec4 α),
        s.cubeVerts i = mat_vec_mul s.model (s.originalVerts i) out := by
  obtain ⟨s, h, c, _⟩ := run_total cosf sinf qs (init_cube s0) (update_verts_consistent _)
  exact ⟨s, h, c⟩

/-- C2. Composition is pre-multiplication: `apply_transform(M)` sets `model` to
`mat_mul(M, old model)`, and from the initialised state `apply_transform(A)`
followed by `apply_transform(B)` leaves
`model = mat_mul(B, mat_mul(A, identity))`.  No law of arithmetic is used. -/
theorem compose_is_premultiplication [Zero α] [One α] [Add α] [Mul α] [Neg α] [OfScientific α]
    (M A B tmp tmp1 tmp2 out out1 out2 m0 : mat4 α) (s s0 : State α) :
    (apply_transform M tmp s).model = mat_mul M s.model out ∧
    (apply_transform B tmp2 (apply_transform A tmp1 (init_cube s0))).model
      = mat_mul B (mat_mul A (mat_identity m0) out1) out2 := by
  constructor
  · simp [apply_transform, update_verts_model, memcpy, mat_mul]
  · simp [apply_transform, init_cube, update_verts_model, memcpy, mat_mul, mat_identity_eq]

/-- C9. The fixture is never mutated after initialisation: `apply_transform(M)`
and the reset (key `'c'`) leave `originalVerts` unchanged, and they change no
program variable other than `model` and `cubeVerts`. -/
theorem fixture_frame [Zero α] [One α] [Add α] [Mul α] [Neg α] [Div α] [OfScientific α]
    (cosf sinf : α → α) (M tmp M0 : mat4 α) (x y : Int) (s : State α) :
    (apply_transform M tmp s).originalVerts = s.originalVerts ∧
    apply_transform M tmp s
      = { s with model := (apply_transform M tmp s).model,
                 cubeVerts := (apply_transform M tmp s).cubeVerts } ∧
    ∃ s1, keyboard cosf sinf ('c').toNat x y M0 tmp s = some s1 ∧
      s1.originalVerts = s.originalVerts ∧
      s1 = { s with model := s1.model, cubeVerts := s1.cubeVerts } := by
  refine ⟨update_verts_originalVerts _, ?_, _, keyboard_c cosf sinf x y M0 tmp s,
    update_verts_originalVerts _, ?_⟩
  · rw [apply_transform, update_verts_frame]
  · rw [update_verts_frame]

/-- C3. Sequential application agrees with the composed matrix, arithmetic read
as exact: `mat_vec_mul(mat_mul(B, mat_mul(A, identity)), p)` equals
`mat_vec_mul(B, mat_vec_mul(A, p))`; hence after `apply_transform(A)` then
`apply_transform(B)` from the initialised state each `cubeVerts[i]` is `B`
applied to `A` applied to `originalVerts[i]`.  For `p = (1,1,1,1)`,
`A = translation_matrix(2,0,0)` and `B = scaling_matrix(2,2,2)` the intermediate
point is `(3,1,1,1)` and the result `(6,2,2,1)`. -/
theorem sequential_application [Field α] (A B tmp1 tmp2 m0 out1 out2 : mat4 α)
    (p o1 o2 o3 : vec4 α) (s0 : State α) :
    mat_vec_mul (mat_mul B (mat_mul A (mat_identity m0) out1) out2) p o1
      = mat_vec_mul B (mat_vec_mul A p o2) o3 ∧
    (∀ i : Fin 8,
      (apply_transform B tmp2 (apply_transform A tmp1 (init_cube s0))).cubeVerts i
        = mat_vec_mul B (mat_vec_mul A ((init_cube s0).originalVerts i) o2) o3) ∧
    mat_vec_mul (translation_matrix 2 0 0 out1) ![1, 1, 1, 1] o2 = ![3, 1, 1, 1] ∧
    mat_vec_mul (scaling_matrix 2 2 2 out2) ![3, 1, 1, 1] o3 = ![6, 2, 2, 1] ∧
    mat_vec_mul (mat_mul (scaling_matrix 2 2 2 tmp2)
        (mat_mul (translation_matrix 2 0 0 tmp1) (mat_identity m0) out1) out2)
      ![1, 1, 1, 1] o1 = ![6, 2, 2, 1] := by
  have key : ∀ (A B : mat4 α) (p : vec4 α),
      mat_vec_mul (mat_mul B (mat_mul A (mat_identity m0) out1) out2) p o1
        = mat_vec_mul B (mat_vec_mul A p o2) o3 := by
    intro A B p
    rw [mat_identity_eq, mat_mul_identity_right, mat_vec_mul_mat_mul B A out2 p o1 o2 o3]
  have hT : mat_vec_mul (translation_matrix 2 0 0 out1) ![1, 1, 1, 1] o2
      = (![3, 1, 1, 1] : vec4 α) := by
    funext r
    fin_cases r <;>
      simp [mat_vec_mul_apply, translation_matrix, mat_set, mat_identity_apply]
    norm_num
  have hS : mat_vec_mul (scaling_matrix 2 2 2 out2) ![3, 1, 1, 1] o3
      = (![6, 2, 2, 1] : vec4 α) := by
    funext r
    fin_cases r <;>
      simp [mat_vec_mul_apply, scaling_matrix, mat_set, mat_identity_apply]
    norm_num
  refine ⟨key A B p, ?_, hT, hS, ?_⟩
  · intro i
    rw [apply_transform_cubeVerts B tmp2 out2 o1, apply_transform_model A tmp1 out1,
      apply_transform_originalVerts, init_cube_model, ← mat_identity_eq m0]
    exact key A B _
  · rw [key, mat_vec_mul_out _ _ o2 o2]
    have e1 : translation_matrix (2 : α) 0 0 tmp1 = translation_matrix 2 0 0 out1 := by
      simp [translation_matrix, mat_identity_eq]
    have e2 : scaling_matrix (2 : α) 2 2 tmp2 = scaling_matrix 2 2 2 out2 := by
      simp [scaling_matrix, mat_identity_eq]
    rw [e1, e2, hT, hS]

/-- C4. Reset restores the original geometry regardless of history: after
`init_cube` and any finite sequence of requests, the reset (key `'c'`) succeeds
and leaves `model` equal to the identity matrix and every `cubeVerts[i]` equal
to `originalVerts[i]`, which is still the vertex stored by `init_cube`. -/
theorem reset_restores [Field α] (cosf sinf : α → α) (s0 : State α)
    (qs : List (Request α)) (x y : Int) (M0 tmp : mat4 α) :
    ∃ s, run cosf sinf (init_cube s0) (qs ++ [Request.reset x y M0 tmp]) = some s ∧
      (∀ r c : Fin 4, s.model r c = if r = c then 1 else 0) ∧
      ∀ i : Fin 8, s.cubeVerts i = s.originalVerts i ∧
        s.originalVerts i = (init_cube s0).originalVerts i := by
  obtain ⟨s1, h1, _, o1⟩ := run_total cosf sinf qs (init_cube s0) (update_verts_consistent _)
  refine ⟨update_verts { s1 with model := mat_identity s1.model }, ?_, ?_, ?_⟩
  · rw [run_append, h1]
    rfl
  · intro r c
    rw [update_verts_model]
    exact mat_identity_apply _ r c
  · intro i
    constructor
    · rw [update_verts_cubeVerts, update_verts_originalVerts]
      simp only [mat_identity_eq]
      exact mat_vec_mul_identity _ _
    · rw [update_verts_originalVerts]
      exact congrFun o1 i

/-- C8. `init_cube` establishes the initial state: `originalVerts` holds 8
points, each with `w = 1` and each of `x`, `y`, `z` equal to `0.7` or `-0.7`;
every one of the eight sign combinations occurs and the points are pairwise
distinct; `model` is the identity matrix; `cubeVerts[i] = originalVerts[i]`. -/
theorem init_cube_state [Field α] [CharZero α] (s0 : State α) :
    (∀ i : Fin 8, (init_cube s0).originalVerts i 3 = 1 ∧
      ∀ j : Fin 4, j ≠ 3 →
        (init_cube s0).originalVerts i j = 0.7 ∨ (init_cube s0).originalVerts i j = -0.7) ∧
    (∀ b0 b1 b2 : Bool, ∃ i : Fin 8, (init_cube s0).originalVerts i
        = ![if b0 then 0.7 else -0.7, if b1 then 0.7 else -0.7,
            if b2 then 0.7 else -0.7, 1]) ∧
    Function.Injective (init_cube s0).originalVerts ∧
    (∀ r c : Fin 4, (init_cube s0).model r c = if r = c then 1 else 0) ∧
    ∀ i : Fin 8, (init_cube s0).cubeVerts i = (init_cube s0).originalVerts i := by
  refine ⟨?_, ?_, init_cube_injective s0, ?_, ?_⟩
  · intro i
    rw [init_cube_originalVerts]
    constructor
    · fin_cases i <;> rfl
    · intro j hj
      fin_cases i <;> fin_cases j <;>
        first
          | exact Or.inl rfl
          | exact Or.inr rfl
          | exact absurd rfl hj
  · intro b0 b1 b2
    rw [init_cube_originalVerts]
    cases b0 <;> cases b1 <;> cases b2
    · exact ⟨0, rfl⟩
    · exact ⟨4, rfl⟩
    · exact ⟨3, rfl⟩
    · exact ⟨7, rfl⟩
    · exact ⟨1, rfl⟩
    · exact ⟨5, rfl⟩
    · exact ⟨2, rfl⟩
    · exact ⟨6, rfl⟩
  · intro r c
    rw [init_cube_model]
    rfl
  · intro i
    have h : Consistent (init_cube s0) := update_verts_consistent _
    rw [h i ((init_cube s0).cubeVerts i), init_cube_model]
    exact mat_vec_mul_identity _ _

/-- Witness of C8 over the rationals, from the state in which `main` starts. -/
theorem init_cube_state_witness :
    (∀ i : Fin 8, (init_cube (initial_state : State ℚ)).originalVerts i 3 = 1 ∧
      ∀ j : Fin 4, j ≠ 3 →
        (init_cube (initial_state : State ℚ)).originalVerts i j = 0.7 ∨
        (init_cube (initial_state : State ℚ)).originalVerts i j = -0.7) ∧
    (∀ b0 b1 b2 : Bool, ∃ i : Fin 8, (init_cube (initial_state : State ℚ)).originalVerts i
        = ![if b0 then 0.7 else -0.7, if b1 then 0.7 else -0.7,
            if b2 then 0.7 else -0.7, 1]) ∧
    Function.Injective (init_cube (initial_state : State ℚ)).originalVerts ∧
    (∀ r c : Fin 4, (init_cube (initial_state : State ℚ)).model r c = if r = c then 1 else 0) ∧
    ∀ i : Fin 8, (init_cube (initial_state : State ℚ)).cubeVerts i
      = (init_cube (initial_state : State ℚ)).originalVerts i :=
  init_cube_state initial_state

/-- C19, amended. Affine invariant: every builder call, whatever its
parameters and whatever the arithmetic, returns a matrix whose last row is
`(0, 0, 0, 1)`.  With arithmetic read as exact, `mat_mul` of two such matrices
is such a matrix, so in every state reached from `init_cube` by composing
builder-produced matrices and resets, no request fails, the last row of `model`
is `(0, 0, 0, 1)` and every `cubeVerts[i]` has `w = 1`. -/
theorem affine_invariant {β : Type} [Zero β] [One β] [Neg β] [Mul β] [Div β] [OfScientific β]
    (cosb sinb : β → β) (b : Builder β) (out : mat4 β)
    [Field α] (cosf sinf : α → α) (a m o : mat4 α)
    (s0 : State α) (qs : List (BuilderRequest α)) :
    (b.build cosb sinb out) 3 = ![0, 0, 0, 1] ∧
    (a 3 = ![0, 0, 0, 1] → m 3 = ![0, 0, 0, 1] → (mat_mul a m o) 3 = ![0, 0, 0, 1]) ∧
    ∃ s, run cosf sinf (init_cube s0) (qs.map (BuilderRequest.toRequest cosf sinf)) = some s ∧
      s.model 3 = ![0, 0, 0, 1] ∧ ∀ i : Fin 8, s.cubeVerts i 3 = 1 := by
  refine ⟨build_affine cosb sinb out b, mat_mul_affine a m o, ?_⟩
  have h0 : Affine (init_cube s0).model := by
    rw [init_cube_model]
    exact identity4_affine
  obtain ⟨s, hs, hm, hc, ho⟩ := run_affine cosf sinf qs (init_cube s0) h0
    (update_verts_consistent _)
  refine ⟨s, hs, hm, fun i => affine_w s hc hm i ?_⟩
  rw [ho]
  exact init_cube_w s0 i

/-- Witness of C19 over the rationals: the product of a translation and a
scaling keeps the last row `(0, 0, 0, 1)`. -/
theorem affine_invariant_witness :
    (translation_matrix (1 : ℚ) 2 3 (fun _ _ => 0)) 3 = ![0, 0, 0, 1] ∧
    (scaling_matrix (2 : ℚ) 2 2 (fun _ _ => 0)) 3 = ![0, 0, 0, 1] ∧
    (mat_mul (translation_matrix (1 : ℚ) 2 3 (fun _ _ => 0))
      (scaling_matrix (2 : ℚ) 2 2 (fun _ _ => 0)) (fun _ _ => 0)) 3 = ![0, 0, 0, 1] :=
  have ha : (translation_matrix (1 : ℚ) 2 3 (fun _ _ => 0)) 3 = ![0, 0, 0, 1] :=
    build_affine id id (fun _ _ => 0) (Builder.translation 1 2 3)
  have hm : (scaling_matrix (2 : ℚ) 2 2 (fun _ _ => 0)) 3 = ![0, 0, 0, 1] :=
    build_affine id id (fun _ _ => 0) (Builder.scaling 2 2 2)
  ⟨ha, hm,
    (affine_invariant (id : ℚ → ℚ) id (Builder.scaling 2 2 2) (fun _ _ => 0)
      (id : ℚ → ℚ) id
      (translation_matrix (1 : ℚ) 2 3 (fun _ _ => 0))
      (scaling_matrix (2 : ℚ) 2 2 (fun _ _ => 0)) (fun _ _ => 0) initial_state []).2.1 ha hm⟩

/-- Counterexample to C19 as stated, in `float` arithmetic with overflow: the
builder matrix `scaling_matrix(2^100, 2^100, 2^100)` has finite entries and
last row `(0, 0, 0, 1)`; composing it with the matrix of diagonal
`(+inf, +inf, +inf, 1)`, whose last row is `(0, 0, 0, 1)` too, yields the last
row `(NaN, NaN, NaN, 1)`; after `init_cube` and three calls of
`apply_transform` with it the last row of `model` is `(NaN, NaN, NaN, 1)` and
the `w` of every `cubeVerts[i]` is NaN, not 1. -/
theorem affine_invariant_overflow :
    (∀ r c : Fin 4, ∃ q : ℚ, overflow_scaling r c = Flt.fin q) ∧
    overflow_scaling 3 = ![0, 0, 0, 1] ∧
    (mat_mul overflow_scaling
        ![![Flt.pinf, 0, 0, 0], ![0, Flt.pinf, 0, 0], ![0, 0, Flt.pinf, 0], ![0, 0, 0, 1]]
        (fun _ _ => 0)) 3 ≠ ![0, 0, 0, 1] ∧
    overflow_state.model 3 = ![Flt.nan, Flt.nan, Flt.nan, 1] ∧
    overflow_state.model 3 ≠ ![0, 0, 0, 1] ∧
    ∀ i : Fin 8, overflow_state.cubeVerts i 3 = Flt.nan ∧ overflow_state.cubeVerts i 3 ≠ 1 := by
  have hne : (![Flt.nan, Flt.nan, Flt.nan, 1] : vec4 Flt) ≠ ![0, 0, 0, 1] := by
    intro h
    exact Flt.nan_ne_fin 0 (congrFun h 0)
  refine ⟨?_, ?_, ?_, overflow_state_model_row, ?_, ?_⟩
  · intro r c
    rw [overflow_scaling_eq]
    fin_cases r <;> fin_cases c <;>
      first
        | exact ⟨2 ^ 100, rfl⟩
        | exact ⟨0, rfl⟩
        | exact ⟨1, rfl⟩
  · rw [overflow_scaling_eq]
    rfl
  · rw [overflow_step_three]
    exact hne
  · rw [overflow_state_model_row]
    exact hne
  · intro i
    rw [overflow_state_w]
    exact ⟨rfl, Flt.nan_ne_fin 1⟩

/-- C20. Non-degeneracy, with the real `sin` and `cos` and exact arithmetic:
every transform the key handlers can request has a non-zero determinant (a
call of `keyboard` exits, leaves the state, resets it, or composes a matrix of
non-zero determinant; a call of `special` leaves the state or composes such a
matrix; the scalings by 1.1 and 0.9, the rotations, the reflections, the shears
and the translations all have non-zero determinant), so in every state reached
from `init_cube` through these handlers `model` has a non-zero determinant and
the 8 transformed vertices are pairwise distinct. -/
theorem non_degenerate (K : GlutKeys) (s0 s : State ℝ) (es : List (KeyEvent ℝ))
    (key : Nat) (skey x y : Int) (M tmp : mat4 ℝ) :
    (keyboard Real.cos Real.sin key x y M tmp s = none ∨
      keyboard Real.cos Real.sin key x y M tmp s = some s ∨
      keyboard Real.cos Real.sin key x y M tmp s
        = some (update_verts { s with model := mat_identity s.model }) ∨
      ∃ T : mat4 ℝ, Matrix.det (Matrix.of T) ≠ 0 ∧
        keyboard Real.cos Real.sin key x y M tmp s = some (apply_transform T tmp s)) ∧
    (special K skey x y M tmp s = s ∨
      ∃ T : mat4 ℝ, Matrix.det (Matrix.of T) ≠ 0 ∧
        special K skey x y M tmp s = apply_transform T tmp s) ∧
    Matrix.det (Matrix.of (scaling_matrix (1.1 : ℝ) 1.1 1.1 M)) = 1.331 ∧
    Matrix.det (Matrix.of (scaling_matrix (0.9 : ℝ) 0.9 0.9 M)) = 0.729 ∧
    (∀ d : ℝ, Matrix.det (Matrix.of (rotation_x_matrix Real.cos Real.sin d M)) = 1 ∧
      Matrix.det (Matrix.of (rotation_y_matrix Real.cos Real.sin d M)) = 1 ∧
      Matrix.det (Matrix.of (rotation_z_matrix Real.cos Real.sin d M)) = 1) ∧
    Matrix.det (Matrix.of (reflection_matrix (chr 'x') M : mat4 ℝ)) = -1 ∧
    Matrix.det (Matrix.of (reflection_matrix (chr 'y') M : mat4 ℝ)) = -1 ∧
    Matrix.det (Matrix.of (reflection_matrix (chr 'z') M : mat4 ℝ)) = -1 ∧
    (∀ t : Int, Matrix.det (Matrix.of (shear_matrix t (0.3 : ℝ) M)) = 1) ∧
    (∀ tx ty tz : ℝ, Matrix.det (Matrix.of (translation_matrix tx ty tz M)) = 1) ∧
    Matrix.det (Matrix.of (drive Real.cos Real.sin K (init_cube s0) es).model) ≠ 0 ∧
    Function.Injective (drive Real.cos Real.sin K (init_cube s0) es).cubeVerts := by
  have h0 : Matrix.det (Matrix.of (init_cube s0).model) ≠ 0 := by
    rw [init_cube_model, det_identity4]
    exact one_ne_zero
  obtain ⟨hd, hc, ho⟩ := drive_regular K es (init_cube s0) h0 (update_verts_consistent _)
  refine ⟨keyboard_step key x y M tmp s, special_step K skey x y M tmp s, ?_, ?_,
    fun d => det_rotation_matrix d M, ?_, ?_, ?_, fun t => det_shear_matrix t _ M,
    fun tx ty tz => det_translation_matrix tx ty tz M, hd, ?_⟩
  · rw [det_scaling_matrix]
    norm_num
  · rw [det_scaling_matrix]
    norm_num
  · rw [det_reflection_matrix, if_pos (Or.inl rfl)]
  · rw [det_reflection_matrix, if_pos (Or.inr (Or.inr (Or.inl rfl)))]
  · rw [det_reflection_matrix, if_pos (Or.inr (Or.inr (Or.inr (Or.inr (Or.inl rfl)))))]
  · intro i j hij
    rw [hc i (0 : vec4 ℝ), hc j (0 : vec4 ℝ)] at hij
    have hv := mat_vec_mul_injective _ hd _ _ _ _ hij
    rw [ho] at hv
    exact init_cube_injective s0 hv

end Engine

end Transform3D
